import Mathlib

/-!
Verification of the offline-first synchronization core of the FitTrack
fitness-tracking application (mobile client + REST API monorepo).

The development shallowly embeds the TypeScript synchronization layer:

* `src/apps/mobile/src/types.ts` — the data model (`AppData`, `LocalSyncState`, …);
* `src/apps/mobile/src/state/appState.ts` — `mergeById`, `mergeSnapshot`,
  `updateWorkoutInList` (the Snapshot Merge Engine);
* `src/apps/mobile/App.tsx` — the Pending-Change Tracker state transitions
  (`addNutritionPending`, `addNutritionDeletePending`, …) and the Sync
  Orchestrator pass `syncPendingChanges`;
* `src/apps/mobile/src/storage/appStore.ts` — `createEmptyAppData`,
  `sanitize`, `loadAppData` (persistence and shape repair).

Modelling conventions:

* JS numbers are modelled as `Int`.  The synchronization core never computes
  with the numeric fields (they are only stored, copied and compared for
  equality), so the numeric domain is irrelevant to every property proved here.
* ISO date / timestamp strings are `String`, ordered by Lean's lexicographic
  `String` order, which models `localeCompare` on ASCII ISO-8601 strings.
* `new Date().toISOString()` occurring inside a function is modelled by an
  explicit `now : String` argument to that function.
* A JS `Map` and a JS object (`Record<string, T>`) are insertion-ordered
  association lists; `Map.set` / property write is `setEntry` below.
  A `Record` value always has duplicate-free keys, hence `RecordMap`.
* `string | null` fields are `Option String` (`none` = `null`); fields that a
  legacy remote snapshot may lack (`createdAt`, `syncedAt`, the snapshot
  collections themselves) are `Option`-typed on the remote side, matching the
  `??`/`Array.isArray` defensive reads in `mergeSnapshot`.
* JS `Array.prototype.sort` (required stable by ES2019) with comparator `cmp`
  is `List.mergeSort` with the total preorder `fun a b => cmp a b ≤ 0`.
-/

namespace FitTrack

/-- Workout category (`WorkoutType` in types.ts). -/
inductive WorkoutType where
  | strength
  | cardio
  | mobility
deriving DecidableEq, Repr

/-- Fitness goal (`FitnessGoal` in types.ts). -/
inductive FitnessGoal where
  | lose_weight
  | gain_muscle
  | maintain
deriving DecidableEq, Repr

/-- One exercise row of a workout (`WorkoutExerciseEntry` in types.ts). -/
structure WorkoutExerciseEntry where
  id : String
  name : String
  sets : Int
  reps : Int
  weightKg : Option Int
deriving DecidableEq, Repr

/-- User profile record (`UserProfile` in types.ts). -/
structure UserProfile where
  id : String
  name : String
  age : Int
  heightCm : Int
  currentWeightKg : Int
  goal : FitnessGoal
  dailyCalorieTarget : Int
  proteinTargetGrams : Int
deriving DecidableEq, Repr

/-- A workout log as held locally (`WorkoutLog` in types.ts).
`syncedAt = none` models `syncedAt: null`, i.e. an unsynced workout. -/
structure WorkoutLog where
  id : String
  date : String
  workoutType : WorkoutType
  durationMinutes : Int
  exerciseEntries : List WorkoutExerciseEntry
  intensityRpe : Option Int
  caloriesBurned : Option Int
  templateName : Option String
  notes : Option String
  createdAt : String
  syncedAt : Option String
deriving DecidableEq, Repr

/-- A workout as it may arrive in a remote snapshot.  The TS type of
`SnapshotData.workouts` is `WorkoutLog[]`, but `mergeSnapshot` defends against
legacy/partial rows: `createdAt`/`syncedAt` may be missing (`?? now` backfill)
and `exerciseEntries` may be a non-array (`Array.isArray` check), so those
fields are `Option`-typed here. -/
structure RemoteWorkout where
  id : String
  date : String
  workoutType : WorkoutType
  durationMinutes : Int
  exerciseEntries : Option (List WorkoutExerciseEntry)
  intensityRpe : Option Int
  caloriesBurned : Option Int
  templateName : Option String
  notes : Option String
  createdAt : Option String
  syncedAt : Option String
deriving DecidableEq, Repr

/-- Nutrition log for one calendar date (`NutritionLog` in types.ts). -/
structure NutritionLog where
  date : String
  calories : Int
  protein : Int
  carbs : Int
  fat : Int
  waterLiters : Int
deriving DecidableEq, Repr

/-- Body-measurement snapshot (`ProgressEntry` in types.ts). -/
structure ProgressEntry where
  id : String
  date : String
  weightKg : Int
  bodyFatPct : Option Int
  waistCm : Option Int
deriving DecidableEq, Repr

/-- Reminder configuration (`AppSettings` in types.ts). -/
structure AppSettings where
  dailyReminderEnabled : Bool
  dailyReminderTime : String
  reminderNotificationId : Option String
deriving DecidableEq, Repr

/-- Authentication state (`AuthState` in types.ts). -/
structure AuthState where
  userId : Option String
  email : Option String
  token : Option String
deriving DecidableEq, Repr

/-- The pending/tombstone ledger (`LocalSyncState` in types.ts).
The `string[]` sets are kept as lists, exactly as in the source. -/
structure LocalSyncState where
  profilePending : Bool
  nutritionPendingDates : List String
  progressPendingIds : List String
  deletedWorkoutIds : List String
  deletedNutritionDates : List String
  deletedProgressIds : List String
  lastSuccessfulSyncAt : Option String
deriving DecidableEq, Repr

/-- A JS object used as a string-keyed record: an insertion-ordered association
list whose keys are duplicate-free (JS object keys are unique). -/
abbrev RecordMap (β : Type) := {l : List (String × β) // (l.map Prod.fst).Nodup}

/-- The root local document (`AppData` in types.ts). -/
structure AppData where
  auth : AuthState
  profile : Option UserProfile
  workouts : List WorkoutLog
  nutritionByDate : RecordMap NutritionLog
  progressEntries : List ProgressEntry
  sync : LocalSyncState
  settings : AppSettings
deriving DecidableEq

/-- A remote snapshot (`SnapshotData = Omit<AppData, "auth" | "sync" | "settings">`
in appState.ts).  The collections are `Option`-typed because `mergeSnapshot`
treats an absent list/map as empty (`remote.workouts ?? []`, …). -/
structure SnapshotData where
  profile : Option UserProfile
  workouts : Option (List RemoteWorkout)
  nutritionByDate : Option (RecordMap NutritionLog)
  progressEntries : Option (List ProgressEntry)
deriving DecidableEq

/-- One `Map.set(k, v)` / JS object property write on an insertion-ordered
association list: if the key is already present the value is replaced in place
(keeping the original key position), otherwise the pair is appended. -/
def setEntry (m : List (String × α)) (k : String) (v : α) : List (String × α) :=
  if m.any (fun p => p.1 == k) then
    m.map (fun p => if p.1 == k then (k, v) else p)
  else
    m ++ [(k, v)]

/-- Write a list of key-value pairs into the map, left to right.  Models both a
sequence of `Map.set` calls and the JS object spread `{...m, ...xs}`. -/
def setAll (m xs : List (String × α)) : List (String × α) :=
  xs.foldl (fun acc p => setEntry acc p.1 p.2) m

/-- `mergeById` from appState.ts: seed a `Map` with the remote items keyed by
id, then overwrite with the local items; return `Array.from(map.values())`
(JS `Map` iterates in key-insertion order). -/
def mergeById (key : α → String) (remoteItems localItems : List α) : List α :=
  (setAll (setAll [] (remoteItems.map (fun x => (key x, x))))
      (localItems.map (fun x => (key x, x)))).map Prod.snd

/-- Comparator for merged workouts, from `mergeSnapshot`: descending by `date`,
ties broken descending by `createdAt` (`b.date.localeCompare(a.date)` etc.).
`workoutLe a b` holds when the comparator puts `a` not after `b`. -/
def workoutLe (a b : WorkoutLog) : Bool :=
  if a.date = b.date then decide (b.createdAt ≤ a.createdAt)
  else decide (b.date ≤ a.date)

/-- Comparator for merged progress entries: descending by `date`. -/
def progressLe (a b : ProgressEntry) : Bool :=
  decide (b.date ≤ a.date)

/-- The normalization step of `mergeSnapshot` applied to each remote workout:
spread the row, default `exerciseEntries` to `[]` unless it is an array, and
backfill missing `createdAt`/`syncedAt` with "now". -/
def normalizeWorkout (now : String) (entry : RemoteWorkout) : WorkoutLog :=
  { id := entry.id
    date := entry.date
    workoutType := entry.workoutType
    durationMinutes := entry.durationMinutes
    exerciseEntries := entry.exerciseEntries.getD []
    intensityRpe := entry.intensityRpe
    caloriesBurned := entry.caloriesBurned
    templateName := entry.templateName
    notes := entry.notes
    createdAt := entry.createdAt.getD now
    syncedAt := some (entry.syncedAt.getD now) }

namespace RecordMap

/-- The empty record (`{}`). -/
def empty : RecordMap β := ⟨[], List.nodup_nil⟩

/-- Property lookup `m[k]` (`undefined` = `none`). -/
def lookup (m : RecordMap β) (k : String) : Option β :=
  (m.val.find? (fun p => p.1 == k)).map Prod.snd

theorem keys_setEntry (m : List (String × α)) (k : String) (v : α) :
    (setEntry m k v).map Prod.fst =
      if m.any (fun p => p.1 == k) then m.map Prod.fst
      else m.map Prod.fst ++ [k] := by
  unfold setEntry
  by_cases h : m.any (fun p => p.1 == k)
  · simp only [h, if_true, List.map_map]
    apply List.map_congr_left
    intro p _
    by_cases hpk : p.1 = k
    · simp [hpk]
    · simp [hpk]
  · simp [h]

theorem not_mem_keys_of_not_any (m : List (String × α)) (k : String)
    (h : ¬ m.any (fun p => p.1 == k)) : k ∉ m.map Prod.fst := by
  intro hk
  obtain ⟨p, hp, rfl⟩ := List.mem_map.mp hk
  exact h (List.any_eq_true.mpr ⟨p, hp, by simp⟩)

theorem keys_setAll_append (m xs : List (String × α)) :
    ∃ fresh, (setAll m xs).map Prod.fst = m.map Prod.fst ++ fresh := by
  induction xs generalizing m with
  | nil => exact ⟨[], by simp [setAll]⟩
  | cons p xs ih =>
    have step : setAll m (p :: xs) = setAll (setEntry m p.1 p.2) xs := by
      simp [setAll]
    rw [step]
    obtain ⟨fresh, hf⟩ := ih (setEntry m p.1 p.2)
    rw [keys_setEntry] at hf
    by_cases h : m.any (fun p' => p'.1 == p.1)
    · rw [if_pos h] at hf
      exact ⟨fresh, hf⟩
    · rw [if_neg h] at hf
      exact ⟨p.1 :: fresh, by simpa using hf⟩

theorem nodup_keys_setEntry (m : List (String × α)) (k : String) (v : α)
    (h : (m.map Prod.fst).Nodup) : ((setEntry m k v).map Prod.fst).Nodup := by
  rw [keys_setEntry]
  by_cases hc : m.any (fun p => p.1 == k)
  · rw [if_pos hc]; exact h
  · rw [if_neg hc]
    have hk : k ∉ m.map Prod.fst := not_mem_keys_of_not_any m k hc
    simp [List.nodup_append, h, hk]

theorem nodup_keys_setAll (m xs : List (String × α))
    (h : (m.map Prod.fst).Nodup) : ((setAll m xs).map Prod.fst).Nodup := by
  induction xs generalizing m with
  | nil => simpa [setAll] using h
  | cons p xs ih =>
    have step : setAll m (p :: xs) = setAll (setEntry m p.1 p.2) xs := by
      simp [setAll]
    rw [step]
    exact ih _ (nodup_keys_setEntry m p.1 p.2 h)

/-- JS object spread `{...a, ...b}`. -/
def spread (a b : RecordMap β) : RecordMap β :=
  ⟨setAll a.val b.val, nodup_keys_setAll a.val b.val a.property⟩

/-- Filter a record by a predicate on its keys
(`Object.fromEntries(Object.entries(m).filter(([k]) => p k))`). -/
def filterKeys (p : String → Bool) (m : RecordMap β) : RecordMap β :=
  ⟨m.val.filter (fun q => p q.1),
    List.Nodup.sublist (List.Sublist.map Prod.fst (List.filter_sublist m.val))
      m.property⟩

end RecordMap

/-- `mergeSnapshot` from appState.ts, with `new Date().toISOString()` passed in
as `now`.  (`localData` is the `local` parameter of the source; `local` is a
reserved word in Lean.) -/
def mergeSnapshot (now : String) (localData : AppData) (remote : SnapshotData) :
    AppData :=
  let deletedWorkoutIds := localData.sync.deletedWorkoutIds
  let deletedNutritionDates := localData.sync.deletedNutritionDates
  let deletedProgressIds := localData.sync.deletedProgressIds
  let normalizedRemoteWorkouts :=
    ((remote.workouts.getD []).map (normalizeWorkout now)).filter
      (fun entry => !deletedWorkoutIds.contains entry.id)
  let localWorkouts :=
    localData.workouts.filter (fun entry => !deletedWorkoutIds.contains entry.id)
  let filteredRemoteNutrition :=
    RecordMap.filterKeys (fun date => !deletedNutritionDates.contains date)
      (remote.nutritionByDate.getD RecordMap.empty)
  let localNutrition :=
    RecordMap.filterKeys (fun date => !deletedNutritionDates.contains date)
      localData.nutritionByDate
  let filteredRemoteProgress :=
    (remote.progressEntries.getD []).filter
      (fun entry => !deletedProgressIds.contains entry.id)
  let localProgress :=
    localData.progressEntries.filter
      (fun entry => !deletedProgressIds.contains entry.id)
  let mergedProfile :=
    if localData.sync.profilePending then
      localData.profile.orElse (fun _ => remote.profile.orElse (fun _ => none))
    else
      remote.profile.orElse (fun _ => localData.profile.orElse (fun _ => none))
  { auth := localData.auth
    profile := mergedProfile
    workouts :=
      (mergeById WorkoutLog.id normalizedRemoteWorkouts localWorkouts).mergeSort
        workoutLe
    nutritionByDate := RecordMap.spread filteredRemoteNutrition localNutrition
    progressEntries :=
      (mergeById ProgressEntry.id filteredRemoteProgress localProgress).mergeSort
        progressLe
    sync := localData.sync
    settings := localData.settings }

section MapLemmas

variable {α : Type}

theorem mem_setEntry {p : String × α} {m : List (String × α)} {k : String}
    {v : α} (h : p ∈ setEntry m k v) : p ∈ m ∨ p = (k, v) := by
  unfold setEntry at h
  by_cases ha : m.any (fun q => q.1 == k)
  · rw [if_pos ha] at h
    obtain ⟨q, hq, hqe⟩ := List.mem_map.mp h
    by_cases hqk : q.1 = k
    · right
      rw [if_pos (by simp [hqk])] at hqe
      exact hqe.symm
    · left
      rw [if_neg (by simp [hqk])] at hqe
      exact hqe ▸ hq
  · rw [if_neg ha] at h
    rcases List.mem_append.mp h with h' | h'
    · exact Or.inl h'
    · exact Or.inr (List.mem_singleton.mp h')

theorem mem_setEntry_self (m : List (String × α)) (k : String) (v : α) :
    (k, v) ∈ setEntry m k v := by
  unfold setEntry
  by_cases ha : m.any (fun q => q.1 == k)
  · rw [if_pos ha]
    obtain ⟨q, hq, hqk⟩ := List.any_eq_true.mp ha
    exact List.mem_map.mpr ⟨q, hq, by simp [show q.1 = k by simpa using hqk]⟩
  · rw [if_neg ha]
    exact List.mem_append.mpr (Or.inr (List.mem_singleton.mpr rfl))

theorem mem_setEntry_of_ne {p : String × α} {m : List (String × α)}
    {k : String} {v : α} (hp : p ∈ m) (hk : k ≠ p.1) : p ∈ setEntry m k v := by
  unfold setEntry
  by_cases ha : m.any (fun q => q.1 == k)
  · rw [if_pos ha]
    refine List.mem_map.mpr ⟨p, hp, ?_⟩
    simp [hk.symm]
  · rw [if_neg ha]
    exact List.mem_append.mpr (Or.inl hp)

theorem mem_setAll {p : String × α} {m xs : List (String × α)}
    (h : p ∈ setAll m xs) : p ∈ m ∨ p ∈ xs := by
  induction xs generalizing m with
  | nil => exact Or.inl (by simpa [setAll] using h)
  | cons x xs ih =>
    have step : setAll m (x :: xs) = setAll (setEntry m x.1 x.2) xs := by
      simp [setAll]
    rw [step] at h
    rcases ih h with h' | h'
    · rcases mem_setEntry h' with h'' | h''
      · exact Or.inl h''
      · exact Or.inr (by rw [h'']; exact List.mem_cons_self x xs)
    · exact Or.inr (List.mem_cons_of_mem x h')

theorem mem_setAll_of_no_key {p : String × α} {m xs : List (String × α)}
    (hp : p ∈ m) (hk : ∀ x ∈ xs, x.1 ≠ p.1) : p ∈ setAll m xs := by
  induction xs generalizing m with
  | nil => simpa [setAll] using hp
  | cons x xs ih =>
    have step : setAll m (x :: xs) = setAll (setEntry m x.1 x.2) xs := by
      simp [setAll]
    rw [step]
    exact ih (mem_setEntry_of_ne hp (hk x (List.mem_cons_self x xs)))
      (fun y hy => hk y (List.mem_cons_of_mem x hy))

theorem exists_key_mem_setAll {k : String} {xs : List (String × α)}
    (m : List (String × α)) (h : ∃ x ∈ xs, x.1 = k) :
    ∃ x ∈ xs, x.1 = k ∧ x ∈ setAll m xs := by
  induction xs generalizing m with
  | nil => simp at h
  | cons q xs ih =>
    have step : setAll m (q :: xs) = setAll (setEntry m q.1 q.2) xs := by
      simp [setAll]
    by_cases hlater : ∃ x ∈ xs, x.1 = k
    · obtain ⟨x, hx, hxk, hmem⟩ := ih (setEntry m q.1 q.2) hlater
      exact ⟨x, List.mem_cons_of_mem q hx, hxk, step ▸ hmem⟩
    · have hq : q.1 = k := by
        rcases h with ⟨x, hx, hxk⟩
        rcases List.mem_cons.mp hx with rfl | hx'
        · exact hxk
        · exact absurd ⟨x, hx', hxk⟩ hlater
      refine ⟨q, List.mem_cons_self q xs, hq, ?_⟩
      rw [step]
      refine mem_setAll_of_no_key (by simpa using mem_setEntry_self m q.1 q.2) ?_
      intro y hy hyk
      exact hlater ⟨y, hy, hyk.trans hq⟩

theorem keys_nodup_mergePairs (rp lp : List (String × α)) :
    ((setAll (setAll [] rp) lp).map Prod.fst).Nodup :=
  RecordMap.nodup_keys_setAll _ lp
    (RecordMap.nodup_keys_setAll [] rp (by simp))

theorem wf_mergePairs {p : String × α} {r l : List α} {key : α → String}
    (h : p ∈ setAll (setAll [] (r.map (fun x => (key x, x))))
      (l.map (fun x => (key x, x)))) : p.1 = key p.2 := by
  rcases mem_setAll h with h' | h'
  · rcases mem_setAll h' with h'' | h''
    · simp at h''
    · obtain ⟨x, _, rfl⟩ := List.mem_map.mp h''
      rfl
  · obtain ⟨x, _, rfl⟩ := List.mem_map.mp h'
    rfl

theorem mem_mergeById {w : α} {key : α → String} {r l : List α}
    (h : w ∈ mergeById key r l) : w ∈ r ∨ w ∈ l := by
  obtain ⟨p, hp, rfl⟩ := List.mem_map.mp h
  rcases mem_setAll hp with h' | h'
  · rcases mem_setAll h' with h'' | h''
    · simp at h''
    · obtain ⟨x, hx, hxe⟩ := List.mem_map.mp h''
      exact Or.inl (by rw [show p.2 = x from congrArg Prod.snd hxe.symm]; exact hx)
  · obtain ⟨x, hx, hxe⟩ := List.mem_map.mp h'
    exact Or.inr (by rw [show p.2 = x from congrArg Prod.snd hxe.symm]; exact hx)

/-- Local always wins in `mergeById`: if some local item has key `i`, then the
merged list contains exactly local items under that key. -/
theorem mergeById_localWins {key : α → String} {r l : List α} {i : String}
    (h : ∃ x ∈ l, key x = i) :
    (∃ w ∈ mergeById key r l, key w = i ∧ w ∈ l) ∧
      (∀ w ∈ mergeById key r l, key w = i → w ∈ l) := by
  classical
  set rp := r.map (fun x => (key x, x)) with hrp
  set lp := l.map (fun x => (key x, x)) with hlp
  have hex : ∃ x ∈ lp, x.1 = i := by
    obtain ⟨x, hx, hxk⟩ := h
    exact ⟨(key x, x), List.mem_map_of_mem _ hx, hxk⟩
  obtain ⟨q, hqlp, hqk, hqmem⟩ := exists_key_mem_setAll (setAll [] rp) hex
  obtain ⟨x, hxl, hxe⟩ := List.mem_map.mp hqlp
  have hq2 : q.2 = x := congrArg Prod.snd hxe.symm
  constructor
  · refine ⟨q.2, List.mem_map_of_mem Prod.snd hqmem, ?_, by rw [hq2]; exact hxl⟩
    have hwf : q.1 = key q.2 := wf_mergePairs hqmem
    exact hwf ▸ hqk
  · intro w hw hwk
    obtain ⟨p, hp, rfl⟩ := List.mem_map.mp hw
    have hpk : p.1 = i := (wf_mergePairs hp).trans hwk
    have hnd := keys_nodup_mergePairs rp lp
    have := List.inj_on_of_nodup_map hnd hp hqmem (by rw [hpk, hqk])
    rw [this, hq2]
    exact hxl

end MapLemmas

/-- `withUnique` from App.tsx: append `value` unless already present. -/
def withUnique (items : List String) (value : String) : List String :=
  if items.contains value then items else items ++ [value]

/-- `setProfilePending` from App.tsx.  Clearing the pending flag also stamps
`lastSuccessfulSyncAt` with the current time. -/
def setProfilePending (nowIso : String) (pending : Bool) (prev : AppData) :
    AppData :=
  { prev with
    sync :=
      { prev.sync with
        profilePending := pending
        lastSuccessfulSyncAt :=
          if pending then prev.sync.lastSuccessfulSyncAt else some nowIso } }

/-- `addNutritionPending` from App.tsx: mark a nutrition date pending and
un-tombstone it (a new edit un-deletes). -/
def addNutritionPending (date : String) (prev : AppData) : AppData :=
  { prev with
    sync :=
      { prev.sync with
        nutritionPendingDates := withUnique prev.sync.nutritionPendingDates date
        deletedNutritionDates :=
          prev.sync.deletedNutritionDates.filter (fun item => item != date) } }

/-- `resolveNutritionPending` from App.tsx. -/
def resolveNutritionPending (nowIso : String) (date : String) (prev : AppData) :
    AppData :=
  { prev with
    sync :=
      { prev.sync with
        nutritionPendingDates :=
          prev.sync.nutritionPendingDates.filter (fun item => item != date)
        lastSuccessfulSyncAt := some nowIso } }

/-- `addProgressPending` from App.tsx. -/
def addProgressPending (id : String) (prev : AppData) : AppData :=
  { prev with
    sync :=
      { prev.sync with
        progressPendingIds := withUnique prev.sync.progressPendingIds id
        deletedProgressIds :=
          prev.sync.deletedProgressIds.filter (fun item => item != id) } }

/-- `resolveProgressPending` from App.tsx. -/
def resolveProgressPending (nowIso : String) (id : String) (prev : AppData) :
    AppData :=
  { prev with
    sync :=
      { prev.sync with
        progressPendingIds :=
          prev.sync.progressPendingIds.filter (fun item => item != id)
        lastSuccessfulSyncAt := some nowIso } }

/-- `addWorkoutDeletePending` from App.tsx. -/
def addWorkoutDeletePending (id : String) (prev : AppData) : AppData :=
  { prev with
    sync :=
      { prev.sync with
        deletedWorkoutIds := withUnique prev.sync.deletedWorkoutIds id } }

/-- `resolveWorkoutDeletePending` from App.tsx. -/
def resolveWorkoutDeletePending (nowIso : String) (id : String)
    (prev : AppData) : AppData :=
  { prev with
    sync :=
      { prev.sync with
        deletedWorkoutIds :=
          prev.sync.deletedWorkoutIds.filter (fun item => item != id)
        lastSuccessfulSyncAt := some nowIso } }

/-- `addNutritionDeletePending` from App.tsx: deletion removes the date from
the pending set (delete overrides an in-flight edit) and tombstones it. -/
def addNutritionDeletePending (date : String) (prev : AppData) : AppData :=
  { prev with
    sync :=
      { prev.sync with
        nutritionPendingDates :=
          prev.sync.nutritionPendingDates.filter (fun item => item != date)
        deletedNutritionDates :=
          withUnique prev.sync.deletedNutritionDates date } }

/-- `resolveNutritionDeletePending` from App.tsx. -/
def resolveNutritionDeletePending (nowIso : String) (date : String)
    (prev : AppData) : AppData :=
  { prev with
    sync :=
      { prev.sync with
        deletedNutritionDates :=
          prev.sync.deletedNutritionDates.filter (fun item => item != date)
        lastSuccessfulSyncAt := some nowIso } }

/-- `addProgressDeletePending` from App.tsx. -/
def addProgressDeletePending (id : String) (prev : AppData) : AppData :=
  { prev with
    sync :=
      { prev.sync with
        progressPendingIds :=
          prev.sync.progressPendingIds.filter (fun item => item != id)
        deletedProgressIds := withUnique prev.sync.deletedProgressIds id } }

/-- `resolveProgressDeletePending` from App.tsx. -/
def resolveProgressDeletePending (nowIso : String) (id : String)
    (prev : AppData) : AppData :=
  { prev with
    sync :=
      { prev.sync with
        deletedProgressIds :=
          prev.sync.deletedProgressIds.filter (fun item => item != id)
        lastSuccessfulSyncAt := some nowIso } }

/-- `markWorkoutSynced` from App.tsx: stamp the workout's `syncedAt` and
`lastSuccessfulSyncAt` with the current time. -/
def markWorkoutSynced (nowIso : String) (workoutId : String) (prev : AppData) :
    AppData :=
  { prev with
    workouts :=
      prev.workouts.map (fun entry =>
        if entry.id == workoutId then { entry with syncedAt := some nowIso }
        else entry)
    sync := { prev.sync with lastSuccessfulSyncAt := some nowIso } }

/-- JS truthiness of a `string | null | undefined` value: `!x` is true exactly
for `null`/`undefined`/`""`.  Used for the `!entry.syncedAt` pending test. -/
def strFalsy : Option String → Bool
  | none => true
  | some s => s.isEmpty

/-- The network collaborators of one orchestrator pass.  Every push/delete call
of `fitnessApi.ts` reports only a boolean success; a pass's outcomes are
modelled as one deterministic oracle per endpoint. -/
structure PushOracle where
  deleteWorkoutLog : String → Bool
  deleteNutritionLog : String → Bool
  deleteProgressEntry : String → Bool
  syncProfile : UserProfile → Bool
  syncNutritionLog : NutritionLog → Bool
  syncProgressEntry : ProgressEntry → Bool
  syncWorkoutLog : WorkoutLog → Bool

/-- One orchestrator pass: `syncPendingChanges` from App.tsx.

The source captures `current = appDataRef.current` once at the start of the
pass; each loop then iterates over the queues of `current` while the resolve
helpers update the evolving state (`setAppData(prev => …)`), modelled by
folding the per-item step over the evolving `AppData`.  `pull = some snapshot`
models `options.pullSnapshot` with a successful `fetchSnapshot`; `none` covers
both "no pull requested" and a failed fetch (identical effect: no state
change).  All `new Date()` stamps of the pass are modelled by the single
`now`; no claim below depends on distinguishing them. -/
def syncPendingChanges (now : String) (o : PushOracle)
    (pull : Option SnapshotData) (data : AppData) : AppData :=
  let current := data
  let s1 := current.sync.deletedWorkoutIds.foldl
    (fun st workoutId =>
      if o.deleteWorkoutLog workoutId then
        resolveWorkoutDeletePending now workoutId st
      else st) data
  let s2 := current.sync.deletedNutritionDates.foldl
    (fun st date =>
      if o.deleteNutritionLog date then resolveNutritionDeletePending now date st
      else st) s1
  let s3 := current.sync.deletedProgressIds.foldl
    (fun st progressId =>
      if o.deleteProgressEntry progressId then
        resolveProgressDeletePending now progressId st
      else st) s2
  let s4 :=
    match current.profile with
    | some p =>
        if current.sync.profilePending then
          if o.syncProfile p then setProfilePending now false s3 else s3
        else s3
    | none => s3
  let s5 := current.sync.nutritionPendingDates.foldl
    (fun st date =>
      if current.sync.deletedNutritionDates.contains date then st
      else
        match current.nutritionByDate.lookup date with
        | none => resolveNutritionPending now date st
        | some log =>
            if o.syncNutritionLog log then resolveNutritionPending now date st
            else st) s4
  let s6 := current.sync.progressPendingIds.foldl
    (fun st entryId =>
      if current.sync.deletedProgressIds.contains entryId then st
      else
        match current.progressEntries.find? (fun item => item.id == entryId) with
        | none => resolveProgressPending now entryId st
        | some entry =>
            if o.syncProgressEntry entry then resolveProgressPending now entryId st
            else st) s5
  let pendingWorkouts := current.workouts.filter
    (fun entry =>
      strFalsy entry.syncedAt && !current.sync.deletedWorkoutIds.contains entry.id)
  let s7 := pendingWorkouts.foldl
    (fun st workout =>
      if o.syncWorkoutLog workout then markWorkoutSynced now workout.id st
      else st) s6
  match pull with
  | some snapshot =>
      let merged := mergeSnapshot now s7 snapshot
      { merged with
        sync := { s7.sync with lastSuccessfulSyncAt := some now } }
  | none => s7

/-! ### Shared helper lemmas about `mergeSnapshot` -/

theorem mergeSnapshot_sync (now : String) (localData : AppData)
    (remote : SnapshotData) :
    (mergeSnapshot now localData remote).sync = localData.sync := rfl

theorem string_contains_iff (l : List String) (v : String) :
    l.contains v = true ↔ v ∈ l := by
  simp [List.contains_eq_any_beq, List.any_eq_true]

theorem mem_merged_workouts {now : String} {localData : AppData}
    {remote : SnapshotData} {w : WorkoutLog} :
    w ∈ (mergeSnapshot now localData remote).workouts ↔
      w ∈ mergeById WorkoutLog.id
        (((remote.workouts.getD []).map (normalizeWorkout now)).filter
          (fun e => !localData.sync.deletedWorkoutIds.contains e.id))
        (localData.workouts.filter
          (fun e => !localData.sync.deletedWorkoutIds.contains e.id)) := by
  simp [mergeSnapshot]

theorem mem_merged_progress {now : String} {localData : AppData}
    {remote : SnapshotData} {e : ProgressEntry} :
    e ∈ (mergeSnapshot now localData remote).progressEntries ↔
      e ∈ mergeById ProgressEntry.id
        ((remote.progressEntries.getD []).filter
          (fun x => !localData.sync.deletedProgressIds.contains x.id))
        (localData.progressEntries.filter
          (fun x => !localData.sync.deletedProgressIds.contains x.id)) := by
  simp [mergeSnapshot]

theorem not_mem_of_bnot_contains {l : List String} {v : String}
    (h : (!l.contains v) = true) : v ∉ l := by
  intro hv
  rw [(string_contains_iff l v).mpr hv] at h
  simp at h

theorem bnot_contains_of_not_mem {l : List String} {v : String} (h : v ∉ l) :
    (!l.contains v) = true := by
  cases hc : l.contains v
  · rfl
  · exact absurd ((string_contains_iff l v).mp hc) h

/-! ### Sample data used by the claim witnesses -/

def emptySyncState : LocalSyncState :=
  { profilePending := false
    nutritionPendingDates := []
    progressPendingIds := []
    deletedWorkoutIds := []
    deletedNutritionDates := []
    deletedProgressIds := []
    lastSuccessfulSyncAt := none }

def sampleSettings : AppSettings :=
  { dailyReminderEnabled := false
    dailyReminderTime := "20:00"
    reminderNotificationId := none }

def sampleAuth : AuthState :=
  { userId := some "user-1", email := some "user@example.com", token := some "token" }

def sampleLocalProfile : UserProfile :=
  { id := "user-1", name := "Local", age := 28, heightCm := 176
    currentWeightKg := 74, goal := .maintain
    dailyCalorieTarget := 2400, proteinTargetGrams := 140 }

def sampleRemoteProfile : UserProfile :=
  { sampleLocalProfile with name := "Remote" }

def sampleLocalWorkout : WorkoutLog :=
  { id := "w1", date := "2026-02-16", workoutType := .strength
    durationMinutes := 45, exerciseEntries := [], intensityRpe := some 8
    caloriesBurned := some 320, templateName := some "Push A"
    notes := some "initial", createdAt := "2026-02-16T10:00:00.000Z"
    syncedAt := none }

def sampleRemoteWorkout : RemoteWorkout :=
  { id := "w1", date := "2026-02-15", workoutType := .strength
    durationMinutes := 40, exerciseEntries := some [], intensityRpe := none
    caloriesBurned := none, templateName := none, notes := none
    createdAt := some "2026-02-15T10:00:00.000Z"
    syncedAt := some "2026-02-15T10:05:00.000Z" }

def sampleProgressLocal : ProgressEntry :=
  { id := "p1", date := "2026-02-16", weightKg := 74
    bodyFatPct := none, waistCm := none }

def sampleProgressRemote : ProgressEntry :=
  { id := "p1", date := "2026-02-15", weightKg := 75
    bodyFatPct := none, waistCm := none }

def sampleLocalData : AppData :=
  { auth := sampleAuth
    profile := some sampleLocalProfile
    workouts := [sampleLocalWorkout]
    nutritionByDate := RecordMap.empty
    progressEntries := [sampleProgressLocal]
    sync := emptySyncState
    settings := sampleSettings }

def sampleSnapshot : SnapshotData :=
  { profile := some sampleRemoteProfile
    workouts := some [sampleRemoteWorkout]
    nutritionByDate := none
    progressEntries := some [sampleProgressRemote] }

def emptyLocalData : AppData :=
  { auth := { userId := none, email := none, token := none }
    profile := none
    workouts := []
    nutritionByDate := RecordMap.empty
    progressEntries := []
    sync := emptySyncState
    settings := sampleSettings }

/-- Local state whose only workout is also tombstoned: the input showing that
the raw local-wins claim fails once the shared id is in `deletedWorkoutIds`. -/
def tombstonedLocalData : AppData :=
  { emptyLocalData with
    workouts := [sampleLocalWorkout]
    sync := { emptySyncState with deletedWorkoutIds := ["w1"] } }

/-- A legacy-style remote workout carrying neither `createdAt` nor `syncedAt`:
`mergeSnapshot` backfills both with the merge's execution time. -/
def legacyRemoteWorkout : RemoteWorkout :=
  { id := "w9", date := "2026-02-10", workoutType := .cardio
    durationMinutes := 30, exerciseEntries := none, intensityRpe := none
    caloriesBurned := none, templateName := none, notes := none
    createdAt := none, syncedAt := none }

def legacySnapshot : SnapshotData :=
  { profile := none
    workouts := some [legacyRemoteWorkout]
    nutritionByDate := none
    progressEntries := none }

/-! ### Claim theorems -/

/-- C6: for every local `AppData` and remote snapshot, the `sync` and
`settings` fields of `mergeSnapshot`'s output are exactly `local.sync` and
`local.settings`; the merge changes no field of the sync bookkeeping and no
field of the settings. -/
theorem mergeSnapshot_frame_sync_settings (now : String) (localData : AppData)
    (remote : SnapshotData) :
    (mergeSnapshot now localData remote).sync = localData.sync ∧
      (mergeSnapshot now localData remote).settings = localData.settings :=
  ⟨rfl, rfl⟩

/-- C4: the merged profile is the local profile when `profilePending` is true
(falling back to remote only when the local profile is null), and the remote
profile when `profilePending` is false (falling back to local only when the
remote profile is null). -/
theorem mergeSnapshot_profile_selection (now : String) (localData : AppData)
    (remote : SnapshotData) :
    (localData.sync.profilePending = true →
      ∀ p, localData.profile = some p →
        (mergeSnapshot now localData remote).profile = some p) ∧
      (localData.sync.profilePending = true → localData.profile = none →
        (mergeSnapshot now localData remote).profile = remote.profile) ∧
      (localData.sync.profilePending = false →
        ∀ p, remote.profile = some p →
          (mergeSnapshot now localData remote).profile = some p) ∧
      (localData.sync.profilePending = false → remote.profile = none →
        (mergeSnapshot now localData remote).profile = localData.profile) := by
  refine ⟨?_, ?_, ?_, ?_⟩
  · intro hp p hloc
    simp [mergeSnapshot, hp, hloc, Option.orElse]
  · intro hp hloc
    cases hrem : remote.profile <;>
      simp [mergeSnapshot, hp, hloc, hrem, Option.orElse]
  · intro hp p hrem
    simp [mergeSnapshot, hp, hrem, Option.orElse]
  · intro hp hrem
    cases hloc : localData.profile <;>
      simp [mergeSnapshot, hp, hrem, hloc, Option.orElse]

/-- Witness for C4 at concrete inputs, exercising all four cases. -/
theorem mergeSnapshot_profile_selection_witness :
    (mergeSnapshot "T" { sampleLocalData with sync := { emptySyncState with profilePending := true } } sampleSnapshot).profile = some sampleLocalProfile ∧
      (mergeSnapshot "T" { sampleLocalData with profile := none, sync := { emptySyncState with profilePending := true } } sampleSnapshot).profile = some sampleRemoteProfile ∧
      (mergeSnapshot "T" sampleLocalData sampleSnapshot).profile = some sampleRemoteProfile ∧
      (mergeSnapshot "T" sampleLocalData { sampleSnapshot with profile := none }).profile = some sampleLocalProfile := by
  refine ⟨?_, ?_, ?_, ?_⟩
  · exact (mergeSnapshot_profile_selection "T" _ _).1 rfl sampleLocalProfile rfl
  · exact ((mergeSnapshot_profile_selection "T" _ _).2.1 rfl rfl).trans rfl
  · exact (mergeSnapshot_profile_selection "T" _ _).2.2.1 rfl sampleRemoteProfile rfl
  · exact ((mergeSnapshot_profile_selection "T" _ _).2.2.2 rfl rfl).trans rfl

/-- C2: the merge output contains no workout whose id is tombstoned, no
nutrition entry whose date key is tombstoned and no progress entry whose id is
tombstoned; moreover each collection's filter consults only its own kind's
tombstone set (the merged collection is unchanged under any modification of
the sync state that keeps that kind's tombstone set). -/
theorem mergeSnapshot_tombstone_exclusion (now : String) (localData : AppData)
    (remote : SnapshotData) :
    (∀ w ∈ (mergeSnapshot now localData remote).workouts,
        w.id ∉ localData.sync.deletedWorkoutIds) ∧
      (∀ p ∈ ((mergeSnapshot now localData remote).nutritionByDate).val,
        p.1 ∉ localData.sync.deletedNutritionDates) ∧
      (∀ e ∈ (mergeSnapshot now localData remote).progressEntries,
        e.id ∉ localData.sync.deletedProgressIds) ∧
      (∀ s' : LocalSyncState,
        s'.deletedWorkoutIds = localData.sync.deletedWorkoutIds →
        (mergeSnapshot now { localData with sync := s' } remote).workouts =
          (mergeSnapshot now localData remote).workouts) ∧
      (∀ s' : LocalSyncState,
        s'.deletedNutritionDates = localData.sync.deletedNutritionDates →
        (mergeSnapshot now { localData with sync := s' } remote).nutritionByDate =
          (mergeSnapshot now localData remote).nutritionByDate) ∧
      (∀ s' : LocalSyncState,
        s'.deletedProgressIds = localData.sync.deletedProgressIds →
        (mergeSnapshot now { localData with sync := s' } remote).progressEntries =
          (mergeSnapshot now localData remote).progressEntries) := by
  refine ⟨?_, ?_, ?_, ?_, ?_, ?_⟩
  · intro w hw
    rw [mem_merged_workouts] at hw
    rcases mem_mergeById hw with h | h <;>
      exact not_mem_of_bnot_contains (List.mem_filter.mp h).2
  · intro p hp
    rcases mem_setAll hp with h | h <;>
      exact not_mem_of_bnot_contains (List.mem_filter.mp h).2
  · intro e he
    rw [mem_merged_progress] at he
    rcases mem_mergeById he with h | h <;>
      exact not_mem_of_bnot_contains (List.mem_filter.mp h).2
  · intro s' hs
    simp only [mergeSnapshot, hs]
  · intro s' hs
    simp only [mergeSnapshot, hs]
  · intro s' hs
    simp only [mergeSnapshot, hs]

/-- Witness for C2: the sample tombstoned state drops workout "w1" from the
merge output, and replacing the sync state by one agreeing on
`deletedWorkoutIds` leaves the merged workouts unchanged. -/
theorem mergeSnapshot_tombstone_exclusion_witness :
    (∀ w ∈ (mergeSnapshot "T" tombstonedLocalData sampleSnapshot).workouts,
        w.id ∉ tombstonedLocalData.sync.deletedWorkoutIds) ∧
      (mergeSnapshot "T"
          { tombstonedLocalData with
            sync := { tombstonedLocalData.sync with deletedProgressIds := ["q"] } }
          sampleSnapshot).workouts =
        (mergeSnapshot "T" tombstonedLocalData sampleSnapshot).workouts := by
  constructor
  · exact (mergeSnapshot_tombstone_exclusion "T" tombstonedLocalData sampleSnapshot).1
  · exact (mergeSnapshot_tombstone_exclusion "T" tombstonedLocalData
      sampleSnapshot).2.2.2.1 _ rfl

/-- C10: every workout of the merge output whose id does not occur among the
local workouts carries a non-null `syncedAt`: records introduced from the
remote snapshot are never pending after a pull, because normalization
backfills a missing `syncedAt` before the union. -/
theorem mergeSnapshot_remote_introduced_synced (now : String)
    (localData : AppData) (remote : SnapshotData) :
    ∀ w ∈ (mergeSnapshot now localData remote).workouts,
      (∀ lw ∈ localData.workouts, lw.id ≠ w.id) → w.syncedAt.isSome := by
  intro w hw hnolocal
  rw [mem_merged_workouts] at hw
  rcases mem_mergeById hw with h | h
  · obtain ⟨hmem, -⟩ := List.mem_filter.mp h
    obtain ⟨rw', -, rfl⟩ := List.mem_map.mp hmem
    simp [normalizeWorkout]
  · exact absurd rfl (hnolocal w (List.mem_filter.mp h).1)

/-- Witness for C10: the legacy remote workout (no local workout shares its
id) ends up in the merge output of the empty local state with `syncedAt`
populated. -/
theorem mergeSnapshot_remote_introduced_synced_witness :
    (normalizeWorkout "T" legacyRemoteWorkout).syncedAt.isSome := by
  refine mergeSnapshot_remote_introduced_synced "T" emptyLocalData legacySnapshot
    (normalizeWorkout "T" legacyRemoteWorkout) ?_ ?_
  · rw [mem_merged_workouts]
    decide
  · intro lw hlw
    simp [emptyLocalData] at hlw

/-- C1 (amended): whenever a local workout (or progress entry) and a remote
one share the same id *and that id is not in the corresponding tombstone set*,
the merge output contains the local record under that id — the union-by-id
seeds a map with remote entries and overwrites with local entries, so the
non-tombstoned local record always wins on id collision. -/
theorem mergeSnapshot_local_wins (now : String) (localData : AppData)
    (remote : SnapshotData) :
    (∀ i, i ∉ localData.sync.deletedWorkoutIds →
      (∃ lw ∈ localData.workouts, lw.id = i) →
      (∃ rw ∈ remote.workouts.getD [], rw.id = i) →
      (∃ w ∈ (mergeSnapshot now localData remote).workouts,
          w.id = i ∧ w ∈ localData.workouts) ∧
        ∀ w ∈ (mergeSnapshot now localData remote).workouts,
          w.id = i → w ∈ localData.workouts) ∧
      (∀ i, i ∉ localData.sync.deletedProgressIds →
        (∃ le ∈ localData.progressEntries, le.id = i) →
        (∃ re ∈ remote.progressEntries.getD [], re.id = i) →
        (∃ e ∈ (mergeSnapshot now localData remote).progressEntries,
            e.id = i ∧ e ∈ localData.progressEntries) ∧
          ∀ e ∈ (mergeSnapshot now localData remote).progressEntries,
            e.id = i → e ∈ localData.progressEntries) := by
  constructor
  · intro i hdel hloc _
    obtain ⟨lw, hlw, hlwi⟩ := hloc
    have hfil : ∃ x ∈ localData.workouts.filter
        (fun e => !localData.sync.deletedWorkoutIds.contains e.id),
        WorkoutLog.id x = i := by
      refine ⟨lw, List.mem_filter.mpr ⟨hlw, ?_⟩, hlwi⟩
      rw [hlwi]
      exact bnot_contains_of_not_mem hdel
    obtain ⟨⟨w, hwmem, hwi, hwfil⟩, hall⟩ := mergeById_localWins hfil
    refine ⟨⟨w, mem_merged_workouts.mpr hwmem, hwi, (List.mem_filter.mp hwfil).1⟩, ?_⟩
    intro w' hw' hw'i
    exact (List.mem_filter.mp
      (hall w' (mem_merged_workouts.mp hw') hw'i)).1
  · intro i hdel hloc _
    obtain ⟨le, hle, hlei⟩ := hloc
    have hfil : ∃ x ∈ localData.progressEntries.filter
        (fun e => !localData.sync.deletedProgressIds.contains e.id),
        ProgressEntry.id x = i := by
      refine ⟨le, List.mem_filter.mpr ⟨hle, ?_⟩, hlei⟩
      rw [hlei]
      exact bnot_contains_of_not_mem hdel
    obtain ⟨⟨e, hemem, hei, hefil⟩, hall⟩ := mergeById_localWins hfil
    refine ⟨⟨e, mem_merged_progress.mpr hemem, hei, (List.mem_filter.mp hefil).1⟩, ?_⟩
    intro e' he' he'i
    exact (List.mem_filter.mp
      (hall e' (mem_merged_progress.mp he') he'i)).1

/-- Counterexample to C1 as stated: with local workout "w1" tombstoned, the
local and remote records share id "w1" yet the merge output contains no
workout with that id at all — the raw claim fails without the
"not tombstoned" proviso. -/
theorem mergeSnapshot_local_wins_cex :
    sampleLocalWorkout ∈ tombstonedLocalData.workouts ∧
      sampleLocalWorkout.id = "w1" ∧
      sampleRemoteWorkout ∈ sampleSnapshot.workouts.getD [] ∧
      sampleRemoteWorkout.id = "w1" ∧
      (mergeSnapshot "T" tombstonedLocalData sampleSnapshot).workouts = [] := by
  refine ⟨by decide, rfl, by decide, rfl, ?_⟩
  show (mergeById WorkoutLog.id _ _).mergeSort workoutLe = []
  have h : mergeById WorkoutLog.id
      (((sampleSnapshot.workouts.getD []).map (normalizeWorkout "T")).filter
        (fun e => !tombstonedLocalData.sync.deletedWorkoutIds.contains e.id))
      (tombstonedLocalData.workouts.filter
        (fun e => !tombstonedLocalData.sync.deletedWorkoutIds.contains e.id)) = [] := by
    decide
  rw [h]
  simp

/-- Witness for C1 (amended) at the sample inputs: local workout "w1" is not
tombstoned, collides with remote "w1", and survives the merge. -/
theorem mergeSnapshot_local_wins_witness :
    (∃ w ∈ (mergeSnapshot "T" sampleLocalData sampleSnapshot).workouts,
        w.id = "w1" ∧ w ∈ sampleLocalData.workouts) ∧
      ∀ w ∈ (mergeSnapshot "T" sampleLocalData sampleSnapshot).workouts,
        w.id = "w1" → w ∈ sampleLocalData.workouts :=
  (mergeSnapshot_local_wins "T" sampleLocalData sampleSnapshot).1 "w1"
    (by decide) ⟨sampleLocalWorkout, by decide, rfl⟩
    ⟨sampleRemoteWorkout, by decide, rfl⟩

/-- Counterexample to C8 as stated: `mergeSnapshot` is not a function of the
two arguments alone — when a remote workout lacks `createdAt`/`syncedAt` the
normalization backfills them with `new Date().toISOString()`, so two runs on
equal inputs at different times produce different outputs. -/
theorem mergeSnapshot_deterministic_cex :
    mergeSnapshot "2026-01-01T00:00:00.000Z" emptyLocalData legacySnapshot ≠
      mergeSnapshot "2026-01-02T00:00:00.000Z" emptyLocalData legacySnapshot := by
  intro h
  have h2 := congrArg AppData.workouts h
  have e1 : (mergeSnapshot "2026-01-01T00:00:00.000Z" emptyLocalData
      legacySnapshot).workouts =
      [normalizeWorkout "2026-01-01T00:00:00.000Z" legacyRemoteWorkout] := by
    show (mergeById WorkoutLog.id _ _).mergeSort workoutLe = _
    have hm : mergeById WorkoutLog.id
        (((legacySnapshot.workouts.getD []).map
          (normalizeWorkout "2026-01-01T00:00:00.000Z")).filter
          (fun e => !emptyLocalData.sync.deletedWorkoutIds.contains e.id))
        (emptyLocalData.workouts.filter
          (fun e => !emptyLocalData.sync.deletedWorkoutIds.contains e.id)) =
        [normalizeWorkout "2026-01-01T00:00:00.000Z" legacyRemoteWorkout] := by
      decide
    rw [hm]
    simp
  have e2 : (mergeSnapshot "2026-01-02T00:00:00.000Z" emptyLocalData
      legacySnapshot).workouts =
      [normalizeWorkout "2026-01-02T00:00:00.000Z" legacyRemoteWorkout] := by
    show (mergeById WorkoutLog.id _ _).mergeSort workoutLe = _
    have hm : mergeById WorkoutLog.id
        (((legacySnapshot.workouts.getD []).map
          (normalizeWorkout "2026-01-02T00:00:00.000Z")).filter
          (fun e => !emptyLocalData.sync.deletedWorkoutIds.contains e.id))
        (emptyLocalData.workouts.filter
          (fun e => !emptyLocalData.sync.deletedWorkoutIds.contains e.id)) =
        [normalizeWorkout "2026-01-02T00:00:00.000Z" legacyRemoteWorkout] := by
      decide
    rw [hm]
    simp
  rw [e1, e2] at h2
  have := congrArg WorkoutLog.createdAt (List.head_eq_of_cons_eq h2)
  simp [normalizeWorkout, legacyRemoteWorkout] at this

/-- C8 (amended): `mergeSnapshot` is a pure function of its two arguments and
the execution time, and the execution time is consulted only to backfill
missing remote workout timestamps — whenever every remote workout carries both
`createdAt` and `syncedAt`, two runs at different times on equal arguments
produce equal outputs. -/
theorem mergeSnapshot_deterministic_of_timestamps (now₁ now₂ : String)
    (localData : AppData) (remote : SnapshotData)
    (h : ∀ w ∈ remote.workouts.getD [], w.createdAt.isSome ∧ w.syncedAt.isSome) :
    mergeSnapshot now₁ localData remote = mergeSnapshot now₂ localData remote := by
  have hmap : (remote.workouts.getD []).map (normalizeWorkout now₁) =
      (remote.workouts.getD []).map (normalizeWorkout now₂) := by
    apply List.map_congr_left
    intro w hw
    obtain ⟨h1, h2⟩ := h w hw
    obtain ⟨c, hc⟩ := Option.isSome_iff_exists.mp h1
    obtain ⟨s, hs⟩ := Option.isSome_iff_exists.mp h2
    simp [normalizeWorkout, hc, hs]
  simp only [mergeSnapshot, hmap]

/-- Witness for C8 (amended): the sample snapshot's only workout carries both
timestamps, so merges at two different times agree. -/
theorem mergeSnapshot_deterministic_of_timestamps_witness :
    mergeSnapshot "2026-01-01T00:00:00.000Z" sampleLocalData sampleSnapshot =
      mergeSnapshot "2026-01-02T00:00:00.000Z" sampleLocalData sampleSnapshot :=
  mergeSnapshot_deterministic_of_timestamps _ _ sampleLocalData sampleSnapshot
    (by decide)

theorem mem_withUnique {l : List String} {v x : String} :
    x ∈ withUnique l v ↔ x ∈ l ∨ x = v := by
  unfold withUnique
  by_cases h : l.contains v
  · rw [if_pos h]
    have hv := (string_contains_iff l v).mp h
    constructor
    · exact Or.inl
    · rintro (hx | rfl)
      · exact hx
      · exact hv
  · rw [if_neg h]
    simp

theorem mem_filter_bne {l : List String} {d x : String} :
    x ∈ l.filter (fun item => item != d) ↔ x ∈ l ∧ x ≠ d := by
  simp [List.mem_filter]

theorem disjoint_markPending {pend del : List String} (d : String)
    (h : pend.Disjoint del) :
    (withUnique pend d).Disjoint (del.filter (fun item => item != d)) := by
  intro a ha hb
  obtain ⟨hbdel, hbd⟩ := mem_filter_bne.mp hb
  rcases mem_withUnique.mp ha with ha' | rfl
  · exact h ha' hbdel
  · exact hbd rfl

theorem disjoint_markDeleted {pend del : List String} (d : String)
    (h : pend.Disjoint del) :
    (pend.filter (fun item => item != d)).Disjoint (withUnique del d) := by
  intro a ha hb
  obtain ⟨hapend, had⟩ := mem_filter_bne.mp ha
  rcases mem_withUnique.mp hb with hb' | rfl
  · exact h hapend hb'
  · exact had rfl

theorem disjoint_remove_left {pend del : List String} (d : String)
    (h : pend.Disjoint del) :
    (pend.filter (fun item => item != d)).Disjoint del :=
  fun _ ha hb => h (mem_filter_bne.mp ha).1 hb

theorem disjoint_remove_right {pend del : List String} (d : String)
    (h : pend.Disjoint del) :
    pend.Disjoint (del.filter (fun item => item != d)) :=
  fun _ ha hb => h ha (mem_filter_bne.mp hb).1

/-- The Pending-Change Tracker invariant: for each kind that has both a
pending set and a tombstone set (nutrition by date, progress by id), no key is
in both sets at once. -/
def pendingTombstoneDisjoint (s : LocalSyncState) : Prop :=
  s.nutritionPendingDates.Disjoint s.deletedNutritionDates ∧
    s.progressPendingIds.Disjoint s.deletedProgressIds

/-- C3: every tracker transition of App.tsx — mark pending, mark deleted,
resolve pending, resolve deleted, for the profile, nutrition, progress and
workout-tombstone kinds — preserves disjointness of each kind's pending set
from the same kind's tombstone set; moreover marking a key deleted (also
after it was marked pending) leaves it only in the tombstone set, and marking
it pending removes it from the tombstone set. -/
theorem tracker_pending_tombstone_disjoint (now d j : String) (b : Bool)
    (data : AppData) (h : pendingTombstoneDisjoint data.sync) :
    pendingTombstoneDisjoint (setProfilePending now b data).sync ∧
      pendingTombstoneDisjoint (addNutritionPending d data).sync ∧
      pendingTombstoneDisjoint (resolveNutritionPending now d data).sync ∧
      pendingTombstoneDisjoint (addNutritionDeletePending d data).sync ∧
      pendingTombstoneDisjoint (resolveNutritionDeletePending now d data).sync ∧
      pendingTombstoneDisjoint (addProgressPending j data).sync ∧
      pendingTombstoneDisjoint (resolveProgressPending now j data).sync ∧
      pendingTombstoneDisjoint (addProgressDeletePending j data).sync ∧
      pendingTombstoneDisjoint (resolveProgressDeletePending now j data).sync ∧
      pendingTombstoneDisjoint (addWorkoutDeletePending j data).sync ∧
      pendingTombstoneDisjoint (resolveWorkoutDeletePending now j data).sync ∧
      (d ∈ (addNutritionDeletePending d (addNutritionPending d data)).sync.deletedNutritionDates ∧
        d ∉ (addNutritionDeletePending d (addNutritionPending d data)).sync.nutritionPendingDates) ∧
      (d ∈ (addNutritionPending d data).sync.nutritionPendingDates ∧
        d ∉ (addNutritionPending d data).sync.deletedNutritionDates) ∧
      (j ∈ (addProgressDeletePending j (addProgressPending j data)).sync.deletedProgressIds ∧
        j ∉ (addProgressDeletePending j (addProgressPending j data)).sync.progressPendingIds) ∧
      (j ∈ (addProgressPending j data).sync.progressPendingIds ∧
        j ∉ (addProgressPending j data).sync.deletedProgressIds) := by
  obtain ⟨hN, hP⟩ := h
  refine ⟨⟨hN, hP⟩,
    ⟨disjoint_markPending d hN, hP⟩,
    ⟨disjoint_remove_left d hN, hP⟩,
    ⟨disjoint_markDeleted d hN, hP⟩,
    ⟨disjoint_remove_right d hN, hP⟩,
    ⟨hN, disjoint_markPending j hP⟩,
    ⟨hN, disjoint_remove_left j hP⟩,
    ⟨hN, disjoint_markDeleted j hP⟩,
    ⟨hN, disjoint_remove_right j hP⟩,
    ⟨hN, hP⟩,
    ⟨hN, hP⟩,
    ⟨?_, ?_⟩, ⟨?_, ?_⟩, ⟨?_, ?_⟩, ⟨?_, ?_⟩⟩
  · exact mem_withUnique.mpr (Or.inr rfl)
  · intro hd
    exact (mem_filter_bne.mp hd).2 rfl
  · exact mem_withUnique.mpr (Or.inr rfl)
  · intro hd
    exact (mem_filter_bne.mp hd).2 rfl
  · exact mem_withUnique.mpr (Or.inr rfl)
  · intro hj
    exact (mem_filter_bne.mp hj).2 rfl
  · exact mem_withUnique.mpr (Or.inr rfl)
  · intro hj
    exact (mem_filter_bne.mp hj).2 rfl

/-- Witness for C3 at a concrete state: starting from the sample state with
date "2026-02-16" pending, deleting that date leaves it only tombstoned. -/
theorem tracker_pending_tombstone_disjoint_witness :
    pendingTombstoneDisjoint sampleLocalData.sync ∧
      ("2026-02-16" ∈ (addNutritionDeletePending "2026-02-16"
          (addNutritionPending "2026-02-16" sampleLocalData)).sync.deletedNutritionDates ∧
        "2026-02-16" ∉ (addNutritionDeletePending "2026-02-16"
          (addNutritionPending "2026-02-16" sampleLocalData)).sync.nutritionPendingDates) := by
  have hdis : pendingTombstoneDisjoint sampleLocalData.sync :=
    ⟨by intro a ha _; simp [sampleLocalData, emptySyncState] at ha,
      by intro a ha _; simp [sampleLocalData, emptySyncState] at ha⟩
  exact ⟨hdis,
    (tracker_pending_tombstone_disjoint "T" "2026-02-16" "p1" false
      sampleLocalData hdis).2.2.2.2.2.2.2.2.2.2.2.1⟩

theorem contains_eq_false_of_not_mem {l : List String} {v : String}
    (h : v ∉ l) : l.contains v = false := by
  cases hc : l.contains v
  · rfl
  · exact absurd ((string_contains_iff l v).mp hc) h

theorem foldl_npd_invariant {β : Type} (step : AppData → β → AppData)
    (l : List β) (st : AppData)
    (H : ∀ s x, (step s x).sync.nutritionPendingDates =
      s.sync.nutritionPendingDates) :
    (l.foldl step st).sync.nutritionPendingDates =
      st.sync.nutritionPendingDates := by
  induction l generalizing st with
  | nil => rfl
  | cons x l ih => rw [List.foldl_cons, ih, H]

theorem npd_after_workoutDeletes (now : String) (o : PushOracle)
    (l : List String) (st : AppData) :
    (l.foldl (fun st workoutId =>
      if o.deleteWorkoutLog workoutId then
        resolveWorkoutDeletePending now workoutId st
      else st) st).sync.nutritionPendingDates =
      st.sync.nutritionPendingDates :=
  foldl_npd_invariant _ l st (fun s x => by
    by_cases h : o.deleteWorkoutLog x <;> simp [h, resolveWorkoutDeletePending])

theorem npd_after_nutritionDeletes (now : String) (o : PushOracle)
    (l : List String) (st : AppData) :
    (l.foldl (fun st date =>
      if o.deleteNutritionLog date then resolveNutritionDeletePending now date st
      else st) st).sync.nutritionPendingDates =
      st.sync.nutritionPendingDates :=
  foldl_npd_invariant _ l st (fun s x => by
    by_cases h : o.deleteNutritionLog x <;>
      simp [h, resolveNutritionDeletePending])

theorem npd_after_progressDeletes (now : String) (o : PushOracle)
    (l : List String) (st : AppData) :
    (l.foldl (fun st progressId =>
      if o.deleteProgressEntry progressId then
        resolveProgressDeletePending now progressId st
      else st) st).sync.nutritionPendingDates =
      st.sync.nutritionPendingDates :=
  foldl_npd_invariant _ l st (fun s x => by
    by_cases h : o.deleteProgressEntry x <;>
      simp [h, resolveProgressDeletePending])

theorem npd_after_profilePush (now : String) (o : PushOracle)
    (p? : Option UserProfile) (b : Bool) (st : AppData) :
    (match p? with
      | some p =>
          if b then
            if o.syncProfile p then setProfilePending now false st else st
          else st
      | none => st).sync.nutritionPendingDates =
      st.sync.nutritionPendingDates := by
  cases p? with
  | none => rfl
  | some p =>
      by_cases hb : b <;> by_cases hp : o.syncProfile p <;>
        simp [hb, hp, setProfilePending]

theorem npd_after_progressPush (now : String) (o : PushOracle) (data : AppData)
    (l : List String) (st : AppData) :
    (l.foldl (fun st entryId =>
      if data.sync.deletedProgressIds.contains entryId then st
      else
        match data.progressEntries.find? (fun item => item.id == entryId) with
        | none => resolveProgressPending now entryId st
        | some entry =>
            if o.syncProgressEntry entry then resolveProgressPending now entryId st
            else st) st).sync.nutritionPendingDates =
      st.sync.nutritionPendingDates :=
  foldl_npd_invariant _ l st (fun s x => by
    by_cases h : x ∈ data.sync.deletedProgressIds
    · simp [h]
    · cases hf : data.progressEntries.find? (fun item => item.id == x) with
      | none => simp [h, hf, resolveProgressPending]
      | some entry =>
          by_cases hp : o.syncProgressEntry entry <;>
            simp [h, hf, hp, resolveProgressPending])

theorem npd_after_workoutPush (now : String) (o : PushOracle)
    (l : List WorkoutLog) (st : AppData) :
    (l.foldl (fun st workout =>
      if o.syncWorkoutLog workout then markWorkoutSynced now workout.id st
      else st) st).sync.nutritionPendingDates =
      st.sync.nutritionPendingDates :=
  foldl_npd_invariant _ l st (fun s x => by
    by_cases h : o.syncWorkoutLog x <;> simp [h, markWorkoutSynced])

theorem npd_after_nutritionPush (now : String) (o : PushOracle) (data : AppData)
    (l : List String) (st : AppData) :
    (l.foldl (fun st date =>
      if data.sync.deletedNutritionDates.contains date then st
      else
        match data.nutritionByDate.lookup date with
        | none => resolveNutritionPending now date st
        | some log =>
            if o.syncNutritionLog log then resolveNutritionPending now date st
            else st) st).sync.nutritionPendingDates =
      l.foldl (fun acc date =>
        if data.sync.deletedNutritionDates.contains date then acc
        else
          match data.nutritionByDate.lookup date with
          | none => acc.filter (fun item => item != date)
          | some log =>
              if o.syncNutritionLog log then acc.filter (fun item => item != date)
              else acc) st.sync.nutritionPendingDates := by
  refine (List.foldl_hom (fun s => s.sync.nutritionPendingDates) _ _ l st ?_).symm
  intro s x
  by_cases h : x ∈ data.sync.deletedNutritionDates
  · simp [h]
  · cases hf : data.nutritionByDate.lookup x with
    | none => simp [h, hf, resolveNutritionPending]
    | some log =>
        by_cases hp : o.syncNutritionLog log <;>
          simp [h, hf, hp, resolveNutritionPending]

/-- What one orchestrator pass does to the nutrition pending queue: each date
of the starting queue is processed against the state captured at the start of
the pass, being removed exactly when it is not tombstoned and either its log
is gone (stale) or its push succeeded.  No other phase of the pass (deletes,
profile, progress, workouts, optional pull) touches the queue. -/
theorem syncPendingChanges_npd (now : String) (o : PushOracle)
    (pull : Option SnapshotData) (data : AppData) :
    (syncPendingChanges now o pull data).sync.nutritionPendingDates =
      data.sync.nutritionPendingDates.foldl
        (fun acc date =>
          if data.sync.deletedNutritionDates.contains date then acc
          else
            match data.nutritionByDate.lookup date with
            | none => acc.filter (fun item => item != date)
            | some log =>
                if o.syncNutritionLog log then
                  acc.filter (fun item => item != date)
                else acc)
        data.sync.nutritionPendingDates := by
  have npd_after_pull : ∀ (s7 : AppData) (snapshot : SnapshotData),
      ({ mergeSnapshot now s7 snapshot with
          sync := { s7.sync with lastSuccessfulSyncAt := some now } } :
        AppData).sync.nutritionPendingDates =
        s7.sync.nutritionPendingDates := fun _ _ => rfl
  simp only [syncPendingChanges]
  cases pull with
  | some snapshot =>
      rw [npd_after_pull]
      rw [npd_after_workoutPush, npd_after_progressPush, npd_after_nutritionPush,
        npd_after_profilePush, npd_after_progressDeletes,
        npd_after_nutritionDeletes, npd_after_workoutDeletes]
  | none =>
      rw [npd_after_workoutPush, npd_after_progressPush, npd_after_nutritionPush,
        npd_after_profilePush, npd_after_progressDeletes,
        npd_after_nutritionDeletes, npd_after_workoutDeletes]

/-- C5: if a pass starts with exactly the three pending nutrition dates
`[d1, d2, d3]` (pairwise distinct), none tombstoned, all present in
`nutritionByDate`, and the push succeeds for the first and third but fails for
the second, then after the pass `nutritionPendingDates` is exactly `[d2]`: a
failed push preserves that item's queue membership and the pass continues to
the next item rather than aborting. -/
theorem syncPendingChanges_partial_failure (now : String) (o : PushOracle)
    (pull : Option SnapshotData) (data : AppData) (d1 d2 d3 : String)
    (log1 log2 log3 : NutritionLog)
    (hpend : data.sync.nutritionPendingDates = [d1, d2, d3])
    (h12 : d1 ≠ d2) (h13 : d1 ≠ d3) (h23 : d2 ≠ d3)
    (ht1 : d1 ∉ data.sync.deletedNutritionDates)
    (ht2 : d2 ∉ data.sync.deletedNutritionDates)
    (ht3 : d3 ∉ data.sync.deletedNutritionDates)
    (hl1 : data.nutritionByDate.lookup d1 = some log1)
    (hl2 : data.nutritionByDate.lookup d2 = some log2)
    (hl3 : data.nutritionByDate.lookup d3 = some log3)
    (ho1 : o.syncNutritionLog log1 = true)
    (ho2 : o.syncNutritionLog log2 = false)
    (ho3 : o.syncNutritionLog log3 = true) :
    (syncPendingChanges now o pull data).sync.nutritionPendingDates = [d2] := by
  have hc1 := contains_eq_false_of_not_mem ht1
  have hc2 := contains_eq_false_of_not_mem ht2
  have hc3 := contains_eq_false_of_not_mem ht3
  rw [syncPendingChanges_npd, hpend]
  rw [List.foldl_cons, List.foldl_cons, List.foldl_cons, List.foldl_nil]
  simp only [hc1, hc2, hc3, Bool.false_eq_true, if_false, hl1, hl2, hl3,
    ho1, ho2, ho3, if_true]
  have e11 : (d1 != d1) = false := by simp
  have e21 : (d2 != d1) = true := bne_iff_ne.mpr (Ne.symm h12)
  have e31 : (d3 != d1) = true := bne_iff_ne.mpr (Ne.symm h13)
  have e23 : (d2 != d3) = true := bne_iff_ne.mpr h23
  have e33 : (d3 != d3) = false := by simp
  simp [List.filter, e11, e21, e31, e23, e33]

/-- Witness for C5 at a concrete state and oracle. -/
theorem syncPendingChanges_partial_failure_witness :
    (syncPendingChanges "T"
        { deleteWorkoutLog := fun _ => true
          deleteNutritionLog := fun _ => true
          deleteProgressEntry := fun _ => true
          syncProfile := fun _ => true
          syncNutritionLog := fun log => !(log.date == "2026-02-11")
          syncProgressEntry := fun _ => true
          syncWorkoutLog := fun _ => true }
        none
        { emptyLocalData with
          nutritionByDate :=
            ⟨[("2026-02-10", { date := "2026-02-10", calories := 1, protein := 1, carbs := 1, fat := 1, waterLiters := 1 }),
              ("2026-02-11", { date := "2026-02-11", calories := 2, protein := 2, carbs := 2, fat := 2, waterLiters := 2 }),
              ("2026-02-12", { date := "2026-02-12", calories := 3, protein := 3, carbs := 3, fat := 3, waterLiters := 3 })],
              by decide⟩
          sync := { emptySyncState with
            nutritionPendingDates := ["2026-02-10", "2026-02-11", "2026-02-12"] } }).sync.nutritionPendingDates =
      ["2026-02-11"] := by
  apply syncPendingChanges_partial_failure _ _ _ _
    "2026-02-10" "2026-02-11" "2026-02-12"
    { date := "2026-02-10", calories := 1, protein := 1, carbs := 1, fat := 1, waterLiters := 1 }
    { date := "2026-02-11", calories := 2, protein := 2, carbs := 2, fat := 2, waterLiters := 2 }
    { date := "2026-02-12", calories := 3, protein := 3, carbs := 3, fat := 3, waterLiters := 3 }
  · rfl
  · decide
  · decide
  · decide
  · decide
  · decide
  · decide
  · decide
  · decide
  · decide
  · decide
  · decide
  · decide

/-! ### Stable-sort congruence

`Array.prototype.sort` is stable, so re-sorting a permutation of an already
sorted duplicate-free list reproduces it exactly, provided tied elements keep
their relative order.  The lemmas below close the gap between `List.mergeSort`
of two such permutations. -/

section StableSort

variable {α : Type} {le : α → α → Bool}

theorem pair_sublist_or {l : List α} {a b : α} (ha : a ∈ l) (hb : b ∈ l)
    (hab : a ≠ b) : List.Sublist [a, b] l ∨ List.Sublist [b, a] l := by
  induction l with
  | nil => simp at ha
  | cons x xs ih =>
    rcases List.mem_cons.mp ha with rfl | ha'
    · have hb' : b ∈ xs := by
        rcases List.mem_cons.mp hb with rfl | hb'
        · exact absurd rfl hab
        · exact hb'
      exact Or.inl (List.Sublist.cons₂ a (List.singleton_sublist.mpr hb'))
    · rcases List.mem_cons.mp hb with rfl | hb'
      · exact Or.inr (List.Sublist.cons₂ b (List.singleton_sublist.mpr ha'))
      · rcases ih ha' hb' with h | h
        · exact Or.inl (h.cons x)
        · exact Or.inr (h.cons x)

theorem eq_of_pair_sublist_both {l : List α} {a b : α} (hnd : l.Nodup)
    (h1 : List.Sublist [a, b] l) (h2 : List.Sublist [b, a] l) : a = b := by
  induction l with
  | nil => simp at h1
  | cons x xs ih =>
    cases h1 with
    | cons _ h1' =>
      cases h2 with
      | cons _ h2' => exact ih (List.Nodup.of_cons hnd) h1' h2'
      | cons₂ _ h2' =>
        have hbxs : b ∈ xs := h1'.subset (by simp)
        exact absurd hbxs (List.nodup_cons.mp hnd).1
    | cons₂ _ h1' =>
      cases h2 with
      | cons _ h2' =>
        have haxs : a ∈ xs := h2'.subset (by simp)
        exact absurd haxs (List.nodup_cons.mp hnd).1
      | cons₂ _ h2' => rfl

theorem pair_sublist_of_pair_sublist_mergeSort
    (htrans : ∀ a b c : α, le a b → le b c → le a c)
    (htotal : ∀ a b : α, le a b || le b a)
    {l : List α} {a b : α} (hnd : l.Nodup) (hab : a ≠ b)
    (hba : le b a = true) (h : List.Sublist [a, b] (l.mergeSort le)) :
    List.Sublist [a, b] l := by
  have ha : a ∈ l := List.mem_mergeSort.mp (h.subset (by simp))
  have hb : b ∈ l := List.mem_mergeSort.mp (h.subset (by simp))
  rcases pair_sublist_or ha hb hab with h' | h'
  · exact h'
  · exfalso
    have h2 := List.pair_sublist_mergeSort htrans htotal hba h'
    have hnd' : (l.mergeSort le).Nodup := ((l.mergeSort_perm le).nodup_iff).mpr hnd
    exact hab (eq_of_pair_sublist_both hnd' h h2)

theorem eq_of_sorted_of_perm_of_ties {r₁ r₂ : List α}
    (hp : List.Perm r₁ r₂) (hnd : r₁.Nodup)
    (hs₁ : r₁.Pairwise (fun a b => le a b = true))
    (hs₂ : r₂.Pairwise (fun a b => le a b = true))
    (hties : ∀ a b : α, a ≠ b → le a b = true → le b a = true →
      List.Sublist [a, b] r₁ → List.Sublist [a, b] r₂) : r₁ = r₂ := by
  induction r₁ generalizing r₂ with
  | nil => exact (hp.symm.eq_nil).symm
  | cons a t₁ ih =>
    cases r₂ with
    | nil => exact absurd hp.eq_nil (by simp)
    | cons b t₂ =>
      by_cases hab : a = b
      · subst hab
        have hanin : a ∉ t₁ := (List.nodup_cons.mp hnd).1
        have ihres : t₁ = t₂ := by
          refine ih hp.cons_inv (List.Nodup.of_cons hnd) hs₁.of_cons hs₂.of_cons ?_
          intro x y hxy hlxy hlyx hsub
          have hx : x ∈ t₁ := hsub.subset (by simp)
          have hxa : x ≠ a := fun h => hanin (h ▸ hx)
          have h2 := hties x y hxy hlxy hlyx (hsub.cons a)
          cases h2 with
          | cons _ h2' => exact h2'
          | cons₂ _ h2' => exact absurd rfl hxa
        rw [ihres]
      · exfalso
        have hbt₁ : b ∈ t₁ := by
          rcases List.mem_cons.mp (hp.mem_iff.mpr (List.mem_cons_self b t₂)) with h | h
          · exact absurd h.symm hab
          · exact h
        have hat₂ : a ∈ t₂ := by
          rcases List.mem_cons.mp (hp.mem_iff.mp (List.mem_cons_self a t₁)) with h | h
          · exact absurd h hab
          · exact h
        have hlab : le a b = true := List.rel_of_pairwise_cons hs₁ hbt₁
        have hlba : le b a = true := List.rel_of_pairwise_cons hs₂ hat₂
        have hsub : List.Sublist [a, b] (a :: t₁) :=
          List.Sublist.cons₂ a (List.singleton_sublist.mpr hbt₁)
        have h2 := hties a b hab hlab hlba hsub
        have hnd₂ : (b :: t₂).Nodup := hp.nodup_iff.mp hnd
        cases h2 with
        | cons _ h2' =>
          exact (List.nodup_cons.mp hnd₂).1 (h2'.subset (by simp))
        | cons₂ _ h2' => exact hab rfl

theorem mergeSort_congr_of_ties
    (htrans : ∀ a b c : α, le a b → le b c → le a c)
    (htotal : ∀ a b : α, le a b || le b a)
    {L₁ L₂ : List α} (hp : List.Perm L₁ L₂) (hnd : L₁.Nodup)
    (hties : ∀ a b : α, a ≠ b → le a b = true → le b a = true →
      List.Sublist [a, b] L₁ → List.Sublist [a, b] L₂) :
    L₁.mergeSort le = L₂.mergeSort le := by
  refine eq_of_sorted_of_perm_of_ties
    ((L₁.mergeSort_perm le).trans (hp.trans (L₂.mergeSort_perm le).symm))
    (((L₁.mergeSort_perm le).nodup_iff).mpr hnd)
    (List.sorted_mergeSort htrans htotal L₁)
    (List.sorted_mergeSort htrans htotal L₂) ?_
  intro a b hab hlab hlba hsub
  have h1 : List.Sublist [a, b] L₁ :=
    pair_sublist_of_pair_sublist_mergeSort htrans htotal hnd hab hlba hsub
  exact List.pair_sublist_mergeSort htrans htotal hlab (hties a b hab hlab hlba h1)

end StableSort

/-! ### Structure of `setAll` under duplicate-free keys

`setAll m xs` (a JS `Map` write sequence / object spread) splits into the
entries of `m` with values updated from `xs`, followed by the entries of `xs`
whose keys are fresh, in order. -/

section SetAllStructure

variable {α : Type}

/-- The value an entry of the seed map ends up with after writing `xs`:
the (unique, when keys are duplicate-free) entry of `xs` with the same key,
if any. -/
def updBy (xs : List (String × α)) (p : String × α) : String × α :=
  match xs.find? (fun q => q.1 == p.1) with
  | some q => q
  | none => p

theorem updBy_fst (xs : List (String × α)) (p : String × α) :
    (updBy xs p).1 = p.1 := by
  unfold updBy
  cases hf : xs.find? (fun q => q.1 == p.1) with
  | none => rfl
  | some q => simpa using List.find?_some hf

theorem updBy_nil (p : String × α) : updBy [] p = p := rfl

theorem find?_eq_none_of_key_not_mem {xs : List (String × α)} {k : String}
    (h : k ∉ xs.map Prod.fst) :
    xs.find? (fun q => q.1 == k) = none := by
  rw [List.find?_eq_none]
  intro x hx
  simp only [beq_iff_eq]
  intro hk
  exact h (hk ▸ List.mem_map_of_mem Prod.fst hx)

theorem setAll_structure (xs m : List (String × α))
    (hnd : (xs.map Prod.fst).Nodup) :
    setAll m xs = m.map (updBy xs) ++
      xs.filter (fun q => !(m.map Prod.fst).contains q.1) := by
  induction xs generalizing m with
  | nil =>
    have hm : m.map (updBy []) = m := by
      have h1 : m.map (updBy []) = m.map (fun p => p) :=
        List.map_congr_left (fun p _ => updBy_nil p)
      simpa using h1
    simp [setAll, hm]
  | cons q xs ih =>
    have hnd' : (q.1 :: xs.map Prod.fst).Nodup := by
      rw [List.map_cons] at hnd
      exact hnd
    have hq1 : q.1 ∉ xs.map Prod.fst := (List.nodup_cons.mp hnd').1
    have hndx : (xs.map Prod.fst).Nodup := (List.nodup_cons.mp hnd').2
    have step : setAll m (q :: xs) = setAll (setEntry m q.1 q.2) xs := by
      simp [setAll]
    rw [step, ih _ hndx]
    by_cases hmem : m.any (fun p => p.1 == q.1)
    · -- key of q already present: in-place update, nothing appended for q
      have hkeys : q.1 ∈ m.map Prod.fst := by
        obtain ⟨p, hp, hpk⟩ := List.any_eq_true.mp hmem
        exact (show p.1 = q.1 by simpa using hpk) ▸ List.mem_map_of_mem Prod.fst hp
      have hset : setEntry m q.1 q.2 =
          m.map (fun p => if p.1 == q.1 then (q.1, q.2) else p) := by
        unfold setEntry
        rw [if_pos hmem]
      have hkeymap : (m.map (fun p => if p.1 == q.1 then (q.1, q.2) else p)).map
          Prod.fst = m.map Prod.fst := by
        rw [List.map_map]
        apply List.map_congr_left
        intro p _
        by_cases hpk : p.1 = q.1 <;> simp [hpk]
      have hmapeq : (m.map (fun p => if p.1 == q.1 then (q.1, q.2) else p)).map
          (updBy xs) = m.map (updBy (q :: xs)) := by
        rw [List.map_map]
        apply List.map_congr_left
        intro p _
        by_cases hpk : p.1 = q.1
        · have h1 : updBy xs (q.1, q.2) = (q.1, q.2) := by
            unfold updBy
            rw [find?_eq_none_of_key_not_mem hq1]
          have h2 : updBy (q :: xs) p = q := by
            unfold updBy
            rw [List.find?_cons_of_pos _ (by simp [hpk])]
          simp [hpk, h1, h2]
        · have h2 : updBy (q :: xs) p = updBy xs p := by
            unfold updBy
            rw [List.find?_cons_of_neg _ (by simp [Ne.symm hpk])]
          simp [hpk, h2]
      have hfilter : (q :: xs).filter
          (fun p => !(m.map Prod.fst).contains p.1) =
          xs.filter (fun p => !(m.map Prod.fst).contains p.1) := by
        have hc : (m.map Prod.fst).contains q.1 = true :=
          (string_contains_iff _ _).mpr hkeys
        have hside : ¬ ((!(m.map Prod.fst).contains q.1) = true) := by
          rw [hc]
          simp
        exact List.filter_cons_of_neg hside
      rw [hset, hkeymap, hmapeq, hfilter]
    · -- fresh key: q is appended, keys of m are untouched
      have hknotin : q.1 ∉ m.map Prod.fst :=
        RecordMap.not_mem_keys_of_not_any m q.1 hmem
      have hset : setEntry m q.1 q.2 = m ++ [(q.1, q.2)] := by
        unfold setEntry
        rw [if_neg hmem]
      have hq_eta : ((q.1 : String), (q.2 : α)) = q := rfl
      have hupdq : updBy xs (q.1, q.2) = (q.1, q.2) := by
        unfold updBy
        rw [find?_eq_none_of_key_not_mem hq1]
      have hmapeq : m.map (updBy xs) = m.map (updBy (q :: xs)) := by
        apply List.map_congr_left
        intro p hp
        have hpk : p.1 ≠ q.1 := fun h =>
          hknotin (h ▸ List.mem_map_of_mem Prod.fst hp)
        unfold updBy
        rw [List.find?_cons_of_neg _ (by simp [Ne.symm hpk])]
      have hfilter : xs.filter
          (fun p => !((m ++ [(q.1, q.2)]).map Prod.fst).contains p.1) =
          xs.filter (fun p => !(m.map Prod.fst).contains p.1) := by
        apply List.filter_congr
        intro x hx
        have hxk : x.1 ≠ q.1 := fun h =>
          hq1 (h ▸ List.mem_map_of_mem Prod.fst hx)
        simp only [List.map_append, List.map_cons, List.map_nil,
          List.contains_eq_any_beq, List.any_append]
        simp [hxk]
      have hfilterq : (q :: xs).filter
          (fun p => !(m.map Prod.fst).contains p.1) =
          q :: xs.filter (fun p => !(m.map Prod.fst).contains p.1) :=
        List.filter_cons_of_pos (bnot_contains_of_not_mem hknotin)
      rw [hset, hfilterq, List.map_append, hmapeq, hfilter]
      simp only [List.map_cons, List.map_nil, hupdq, hq_eta, List.append_assoc,
        List.singleton_append]

theorem find?_map_npair_of_mem_keys {β : Type} {key : β → String} {M : List β}
    {k : String} (h : k ∈ M.map key) :
    ∃ x, x ∈ M ∧ key x = k ∧
      (M.map (fun y => (key y, y))).find? (fun q => q.1 == k) =
        some (k, x) := by
  induction M with
  | nil => simp at h
  | cons y M ih =>
    by_cases hk : key y = k
    · refine ⟨y, List.mem_cons_self y M, hk, ?_⟩
      rw [List.map_cons, List.find?_cons_of_pos _ (by simp [hk])]
      rw [hk]
    · have h' : k ∈ M.map key := by
        rw [List.map_cons] at h
        rcases List.mem_cons.mp h with h'' | h''
        · exact absurd h''.symm hk
        · exact h''
      obtain ⟨x, hx, hkx, hfind⟩ := ih h'
      refine ⟨x, List.mem_cons_of_mem y hx, hkx, ?_⟩
      rw [List.map_cons, List.find?_cons_of_neg _ (by simp [hk]), hfind]

theorem map_key_values {β : Type} {key : β → String} {m : List (String × β)}
    (wf : ∀ p ∈ m, p.1 = key p.2) :
    (m.map Prod.snd).map key = m.map Prod.fst := by
  rw [List.map_map]
  exact List.map_congr_left fun p hp => (wf p hp).symm

theorem map_eq_pair {β γ : Type} {f : β → γ} {l : List β} {a b : γ}
    (h : l.map f = [a, b]) : ∃ x y, l = [x, y] ∧ f x = a ∧ f y = b := by
  cases l with
  | nil => simp at h
  | cons x t =>
    cases t with
    | nil => simp at h
    | cons y t' =>
      cases t' with
      | nil =>
        simp only [List.map_cons, List.map_nil, List.cons.injEq, and_true] at h
        exact ⟨x, y, rfl, h.1, h.2⟩
      | cons z t'' => simp at h

theorem map_eq_single {β γ : Type} {f : β → γ} {l : List β} {a : γ}
    (h : l.map f = [a]) : ∃ x, l = [x] ∧ f x = a := by
  cases l with
  | nil => simp at h
  | cons x t =>
    cases t with
    | nil =>
      simp only [List.map_cons, List.map_nil, List.cons.injEq, and_true] at h
      exact ⟨x, rfl, h⟩
    | cons y t' => simp at h

end SetAllStructure

/-! ### Idempotence of union-by-id followed by a stable sort -/

section MergeIdem

variable {α : Type}

theorem mergeById_mergeSort_idem (key : α → String) (le : α → α → Bool)
    (htrans : ∀ a b c : α, le a b → le b c → le a c)
    (htotal : ∀ a b : α, le a b || le b a)
    (NR L : List α) :
    (mergeById key NR ((mergeById key NR L).mergeSort le)).mergeSort le =
      (mergeById key NR L).mergeSort le := by
  unfold mergeById
  set map₁ : List (String × α) := setAll [] (NR.map fun x => (key x, x))
    with hmap₁def
  set Kp : List (String × α) := setAll map₁ (L.map fun x => (key x, x))
    with hKpdef
  set Kv : List α := Kp.map Prod.snd with hKvdef
  set M : List α := Kv.mergeSort le with hMdef
  set Mp : List (String × α) := M.map fun x => (key x, x) with hMpdef
  set Rp : List (String × α) := setAll map₁ Mp with hRpdef
  have hwf_map₁ : ∀ p ∈ map₁, p.1 = key p.2 := by
    intro p hp
    rw [hmap₁def] at hp
    rcases mem_setAll hp with h' | h'
    · simp at h'
    · obtain ⟨x, -, rfl⟩ := List.mem_map.mp h'
      rfl
  have hwf_Kp : ∀ p ∈ Kp, p.1 = key p.2 := by
    intro p hp
    rw [hKpdef] at hp
    rcases mem_setAll hp with h' | h'
    · exact hwf_map₁ p h'
    · obtain ⟨x, -, rfl⟩ := List.mem_map.mp h'
      rfl
  have hnd_map₁ : (map₁.map Prod.fst).Nodup := by
    rw [hmap₁def]
    exact RecordMap.nodup_keys_setAll _ _ (by simp)
  have hnd_Kp : (Kp.map Prod.fst).Nodup := by
    rw [hKpdef]
    exact RecordMap.nodup_keys_setAll _ _ hnd_map₁
  have hkeyval_Kp : Kv.map key = Kp.map Prod.fst := by
    rw [hKvdef]
    exact map_key_values hwf_Kp
  have hnd_Kv : Kv.Nodup := by
    apply List.Nodup.of_map key
    rw [hkeyval_Kp]
    exact hnd_Kp
  have hperm_MKv : List.Perm M Kv := by
    rw [hMdef]
    exact Kv.mergeSort_perm le
  have hnd_M : M.Nodup := hperm_MKv.nodup_iff.mpr hnd_Kv
  have hkeys_M_nodup : (M.map key).Nodup := by
    refine ((hperm_MKv.map key).nodup_iff).mpr ?_
    rw [hkeyval_Kp]
    exact hnd_Kp
  have hcomp_fst : (Prod.fst ∘ fun x : α => ((key x, x) : String × α)) = key := rfl
  have hnd_Mp : (Mp.map Prod.fst).Nodup := by
    rw [hMpdef, List.map_map, hcomp_fst]
    exact hkeys_M_nodup
  obtain ⟨fresh, hsplit⟩ :
      ∃ fresh, Kp.map Prod.fst = map₁.map Prod.fst ++ fresh := by
    rw [hKpdef]
    exact RecordMap.keys_setAll_append _ _
  have hsubkeys : ∀ k, k ∈ map₁.map Prod.fst → k ∈ M.map key := by
    intro k hk
    have h1 : k ∈ Kp.map Prod.fst := hsplit ▸ List.mem_append_left _ hk
    rw [← hkeyval_Kp] at h1
    exact ((hperm_MKv.map key).mem_iff).mpr h1
  have hL6 : Rp = map₁.map (updBy Mp) ++
      Mp.filter (fun q => !(map₁.map Prod.fst).contains q.1) := by
    rw [hRpdef]
    exact setAll_structure Mp map₁ hnd_Mp
  have hchar : ∀ p ∈ map₁, ∃ x, x ∈ M ∧ key x = p.1 ∧ updBy Mp p = (p.1, x) := by
    intro p hp
    obtain ⟨x, hx, hkx, hfind⟩ :=
      find?_map_npair_of_mem_keys (hsubkeys p.1 (List.mem_map_of_mem Prod.fst hp))
    refine ⟨x, hx, hkx, ?_⟩
    unfold updBy
    rw [hMpdef, hfind]
  set FB : List α := (map₁.map (updBy Mp)).map Prod.snd with hFBdef
  have hRv : Rp.map Prod.snd = FB ++
      M.filter (fun x => !(map₁.map Prod.fst).contains (key x)) := by
    rw [hL6, List.map_append, hFBdef]
    congr 1
    rw [hMpdef, List.filter_map, List.map_map]
    have h1 : (Prod.snd ∘ fun x : α => ((key x, x) : String × α)) = id := rfl
    rw [h1, List.map_id]
    rfl
  have hFBmem : ∀ w, w ∈ FB ↔
      w ∈ M ∧ (map₁.map Prod.fst).contains (key w) = true := by
    intro w
    constructor
    · intro hw
      rw [hFBdef] at hw
      obtain ⟨pr, hpr, rfl⟩ := List.mem_map.mp hw
      obtain ⟨p, hp, rfl⟩ := List.mem_map.mp hpr
      obtain ⟨x, hxM, hkx, hupd⟩ := hchar p hp
      rw [hupd]
      exact ⟨hxM, (string_contains_iff _ _).mpr
        (hkx ▸ List.mem_map_of_mem Prod.fst hp)⟩
    · rintro ⟨hwM, hwc⟩
      have hk : key w ∈ map₁.map Prod.fst := (string_contains_iff _ _).mp hwc
      obtain ⟨p, hp, hpk⟩ := List.mem_map.mp hk
      obtain ⟨x, hxM, hkx, hupd⟩ := hchar p hp
      have hxw : x = w :=
        List.inj_on_of_nodup_map hkeys_M_nodup hxM hwM (by rw [hkx, hpk])
      rw [hFBdef]
      refine List.mem_map.mpr ⟨updBy Mp p,
        List.mem_map_of_mem (updBy Mp) hp, ?_⟩
      rw [hupd, hxw]
  have hFBg : FB = map₁.map (fun p => (updBy Mp p).2) := by
    rw [hFBdef, List.map_map]
    rfl
  have hFBnodup : FB.Nodup := by
    apply List.Nodup.of_map key
    have heq : FB.map key = map₁.map Prod.fst := by
      rw [hFBg, List.map_map]
      apply List.map_congr_left
      intro p hp
      obtain ⟨x, _, hkx, hupd⟩ := hchar p hp
      show key (updBy Mp p).2 = p.1
      rw [hupd]
      exact hkx
    rw [heq]
    exact hnd_map₁
  have hperm : List.Perm (Rp.map Prod.snd) M := by
    rw [hRv]
    have h1 : List.Perm FB
        (M.filter (fun x => (map₁.map Prod.fst).contains (key x))) := by
      rw [List.perm_ext_iff_of_nodup hFBnodup (hnd_M.filter _)]
      intro w
      rw [hFBmem w, List.mem_filter]
    exact (h1.append_right _).trans (List.filter_append_perm _ M)
  have horder_toM : ∀ a b : α, a ∈ M → b ∈ M → le a b = true →
      List.Sublist [key a, key b] (Kp.map Prod.fst) →
      List.Sublist [a, b] M := by
    intro a b haM hbM hlab hsubk
    rw [← hkeyval_Kp] at hsubk
    obtain ⟨l', hl', hmap⟩ := List.sublist_map_iff.mp hsubk
    obtain ⟨u, v, rfl, hu, hv⟩ := map_eq_pair hmap.symm
    have huKv : u ∈ Kv := hl'.subset (by simp)
    have hvKv : v ∈ Kv := hl'.subset (by simp)
    have haKv : a ∈ Kv := (hperm_MKv.mem_iff).mp haM
    have hbKv : b ∈ Kv := (hperm_MKv.mem_iff).mp hbM
    have hndKvkeys : (Kv.map key).Nodup := by
      rw [hkeyval_Kp]
      exact hnd_Kp
    have hua : u = a := List.inj_on_of_nodup_map hndKvkeys huKv haKv hu
    have hvb : v = b := List.inj_on_of_nodup_map hndKvkeys hvKv hbKv hv
    subst hua hvb
    have hms := List.pair_sublist_mergeSort htrans htotal hlab hl'
    rw [hMdef]
    exact hms
  have hties : ∀ a b : α, a ≠ b → le a b = true → le b a = true →
      List.Sublist [a, b] (Rp.map Prod.snd) → List.Sublist [a, b] M := by
    intro a b hab hlab hlba hsub
    rw [hRv] at hsub
    rcases List.sublist_append_iff.mp hsub with ⟨l₁, l₂, heq, hs₁, hs₂⟩
    cases l₁ with
    | nil =>
      have hl₂ : l₂ = [a, b] := by simpa using heq.symm
      subst hl₂
      exact hs₂.trans (List.filter_sublist M)
    | cons x l₁' =>
      cases l₁' with
      | nil =>
        have hx : a = x ∧ [b] = l₂ := by simpa using heq
        obtain ⟨hax, hbl⟩ := hx
        subst hax
        subst hbl
        have haFB : a ∈ FB := hs₁.subset (by simp)
        have hbfil : b ∈ M.filter
            (fun x => !(map₁.map Prod.fst).contains (key x)) :=
          hs₂.subset (by simp)
        obtain ⟨hbM, hbc⟩ := List.mem_filter.mp hbfil
        have hkb_notin : key b ∉ map₁.map Prod.fst :=
          not_mem_of_bnot_contains hbc
        obtain ⟨haM, hac⟩ := (hFBmem a).mp haFB
        have hka_in : key a ∈ map₁.map Prod.fst :=
          (string_contains_iff _ _).mp hac
        have hkbKp : key b ∈ Kp.map Prod.fst := by
          rw [← hkeyval_Kp]
          exact List.mem_map_of_mem key ((hperm_MKv.mem_iff).mp hbM)
        have hkb_fresh : key b ∈ fresh := by
          rw [hsplit] at hkbKp
          rcases List.mem_append.mp hkbKp with h | h
          · exact absurd h hkb_notin
          · exact h
        have hsubk : List.Sublist [key a, key b]
            (map₁.map Prod.fst ++ fresh) :=
          List.Sublist.append (List.singleton_sublist.mpr hka_in)
            (List.singleton_sublist.mpr hkb_fresh)
        refine horder_toM a b haM hbM hlab ?_
        rw [hsplit]
        exact hsubk
      | cons y l₁'' =>
        cases l₁'' with
        | nil =>
          have hxy : a = x ∧ b = y ∧ l₂ = [] := by simpa using heq
          obtain ⟨h1, h2, h3⟩ := hxy
          subst h1
          subst h2
          rw [hFBg] at hs₁
          obtain ⟨pq, hpq, hmapg⟩ := List.sublist_map_iff.mp hs₁
          obtain ⟨p, q, rfl, hgp, hgq⟩ := map_eq_pair hmapg.symm
          have hpmem : p ∈ map₁ := hpq.subset (by simp)
          have hqmem : q ∈ map₁ := hpq.subset (by simp)
          obtain ⟨xp, hxpM, hkxp, hupdp⟩ := hchar p hpmem
          obtain ⟨xq, hxqM, hkxq, hupdq⟩ := hchar q hqmem
          have hap : a = xp := by
            rw [← hgp]
            show (updBy Mp p).2 = xp
            rw [hupdp]
          have hbq : b = xq := by
            rw [← hgq]
            show (updBy Mp q).2 = xq
            rw [hupdq]
          have haM : a ∈ M := hap ▸ hxpM
          have hbM : b ∈ M := hbq ▸ hxqM
          have hka : key a = p.1 := by rw [hap, hkxp]
          have hkb : key b = q.1 := by rw [hbq, hkxq]
          have hsubk : List.Sublist [p.1, q.1] (map₁.map Prod.fst) := by
            have := hpq.map Prod.fst
            simpa using this
          refine horder_toM a b haM hbM hlab ?_
          rw [hka, hkb, hsplit]
          exact hsubk.trans (List.sublist_append_left _ _)
        | cons z l₁''' => simp at heq
  have hnd_Rv : (Rp.map Prod.snd).Nodup := (hperm.nodup_iff).mpr hnd_M
  have hcongr := mergeSort_congr_of_ties htrans htotal hperm hnd_Rv hties
  rw [hcongr, hMdef]
  exact List.mergeSort_of_sorted (List.sorted_mergeSort htrans htotal Kv)

end MergeIdem

/-! ### Idempotence of the object-spread nutrition merge -/

section SpreadIdem

variable {β : Type}

theorem find?_map_of_nodup_keys {f : (String × β) → String × β}
    (hf : ∀ p, (f p).1 = p.1) {R : List (String × β)}
    (hnd : (R.map Prod.fst).Nodup) {p : String × β} (hp : p ∈ R) :
    (R.map f).find? (fun q => q.1 == p.1) = some (f p) := by
  induction R with
  | nil => simp at hp
  | cons r R ih =>
    have hnd' : (r.1 :: R.map Prod.fst).Nodup := by
      rw [List.map_cons] at hnd
      exact hnd
    rcases List.mem_cons.mp hp with rfl | hp'
    · rw [List.map_cons, List.find?_cons_of_pos _ (by simp [hf])]
    · have hr : r.1 ≠ p.1 := by
        intro h
        exact (List.nodup_cons.mp hnd').1
          (h ▸ List.mem_map_of_mem Prod.fst hp')
      rw [List.map_cons, List.find?_cons_of_neg _ (by simp [hf, hr])]
      exact ih (List.nodup_cons.mp hnd').2 hp'

theorem setAll_setAll_idem (R Lf : List (String × β))
    (hndR : (R.map Prod.fst).Nodup) (hndL : (Lf.map Prod.fst).Nodup) :
    setAll R (setAll R Lf) = setAll R Lf := by
  have hndN : ((setAll R Lf).map Prod.fst).Nodup :=
    RecordMap.nodup_keys_setAll R Lf hndR
  have hL6N : setAll R Lf = R.map (updBy Lf) ++
      Lf.filter (fun q => !(R.map Prod.fst).contains q.1) :=
    setAll_structure Lf R hndL
  have hL6 : setAll R (setAll R Lf) = R.map (updBy (setAll R Lf)) ++
      (setAll R Lf).filter (fun q => !(R.map Prod.fst).contains q.1) :=
    setAll_structure (setAll R Lf) R hndN
  have hfind : ∀ p ∈ R,
      (setAll R Lf).find? (fun q => q.1 == p.1) = some (updBy Lf p) := by
    intro p hp
    rw [hL6N, List.find?_append,
      find?_map_of_nodup_keys (updBy_fst Lf) hndR hp]
    rfl
  have hmapB : R.map (updBy (setAll R Lf)) = R.map (updBy Lf) := by
    apply List.map_congr_left
    intro p hp
    show updBy (setAll R Lf) p = updBy Lf p
    unfold updBy
    rw [hfind p hp]
    rfl
  have hfil : (setAll R Lf).filter (fun q => !(R.map Prod.fst).contains q.1) =
      Lf.filter (fun q => !(R.map Prod.fst).contains q.1) := by
    rw [hL6N, List.filter_append]
    have h1 : (R.map (updBy Lf)).filter
        (fun q => !(R.map Prod.fst).contains q.1) = [] := by
      rw [List.filter_eq_nil_iff]
      intro q hq
      obtain ⟨p, hp, rfl⟩ := List.mem_map.mp hq
      have hk : (updBy Lf p).1 ∈ R.map Prod.fst := by
        rw [updBy_fst]
        exact List.mem_map_of_mem Prod.fst hp
      have hc : (R.map Prod.fst).contains (updBy Lf p).1 = true :=
        (string_contains_iff _ _).mpr hk
      simp only [hc]
      simp
    have h2 : (Lf.filter (fun q => !(R.map Prod.fst).contains q.1)).filter
        (fun q => !(R.map Prod.fst).contains q.1) =
        Lf.filter (fun q => !(R.map Prod.fst).contains q.1) := by
      rw [List.filter_eq_self]
      intro q hq
      exact (List.mem_filter.mp hq).2
    rw [h1, h2]
    rfl
  rw [hL6, hmapB, hfil, ← hL6N]

theorem spread_spread_idem (a b : RecordMap β) :
    RecordMap.spread a (RecordMap.spread a b) = RecordMap.spread a b :=
  Subtype.ext (setAll_setAll_idem a.val b.val a.property b.property)

end SpreadIdem

/-! ### The merge comparators are transitive and total -/

theorem workoutLe_trans : ∀ a b c : WorkoutLog,
    workoutLe a b → workoutLe b c → workoutLe a c := by
  intro a b c hab hbc
  unfold workoutLe at *
  by_cases h1 : a.date = b.date <;> by_cases h2 : b.date = c.date
  · have h3 : a.date = c.date := h1.trans h2
    rw [if_pos h1] at hab
    rw [if_pos h2] at hbc
    rw [if_pos h3]
    simp only [decide_eq_true_eq] at *
    exact le_trans hbc hab
  · have h3 : a.date ≠ c.date := fun h => h2 (h1.symm.trans h)
    rw [if_pos h1] at hab
    rw [if_neg h2] at hbc
    rw [if_neg h3]
    simp only [decide_eq_true_eq] at *
    rw [← h1] at hbc
    exact hbc
  · have h3 : a.date ≠ c.date := fun h => h1 (h.trans h2.symm)
    rw [if_neg h1] at hab
    rw [if_pos h2] at hbc
    rw [if_neg h3]
    simp only [decide_eq_true_eq] at *
    rw [← h2]
    exact hab
  · rw [if_neg h1] at hab
    rw [if_neg h2] at hbc
    simp only [decide_eq_true_eq] at hab hbc
    have h3 : a.date ≠ c.date := by
      intro h
      exact h2 (le_antisymm (h ▸ hab) hbc)
    rw [if_neg h3]
    simp only [decide_eq_true_eq]
    exact le_trans hbc hab

theorem workoutLe_total : ∀ a b : WorkoutLog,
    workoutLe a b || workoutLe b a := by
  intro a b
  unfold workoutLe
  by_cases h : a.date = b.date
  · rw [if_pos h, if_pos h.symm]
    rcases le_total b.createdAt a.createdAt with h' | h' <;> simp [h']
  · rw [if_neg h, if_neg (fun hh => h hh.symm)]
    rcases le_total b.date a.date with h' | h' <;> simp [h']

theorem progressLe_trans : ∀ a b c : ProgressEntry,
    progressLe a b → progressLe b c → progressLe a c := by
  intro a b c hab hbc
  unfold progressLe at *
  simp only [decide_eq_true_eq] at *
  exact le_trans hbc hab

theorem progressLe_total : ∀ a b : ProgressEntry,
    progressLe a b || progressLe b a := by
  intro a b
  unfold progressLe
  rcases le_total b.date a.date with h | h <;> simp [h]

/-! ### Assembly: idempotence of the full snapshot merge -/

theorem merged_workouts_filter_id (now : String) (localData : AppData)
    (remote : SnapshotData) :
    (mergeSnapshot now localData remote).workouts.filter
      (fun e => !localData.sync.deletedWorkoutIds.contains e.id) =
      (mergeSnapshot now localData remote).workouts := by
  rw [List.filter_eq_self]
  intro w hw
  rw [mem_merged_workouts] at hw
  rcases mem_mergeById hw with h | h <;> exact (List.mem_filter.mp h).2

theorem merged_progress_filter_id (now : String) (localData : AppData)
    (remote : SnapshotData) :
    (mergeSnapshot now localData remote).progressEntries.filter
      (fun e => !localData.sync.deletedProgressIds.contains e.id) =
      (mergeSnapshot now localData remote).progressEntries := by
  rw [List.filter_eq_self]
  intro e he
  rw [mem_merged_progress] at he
  rcases mem_mergeById he with h | h <;> exact (List.mem_filter.mp h).2

theorem merged_nutrition_filter_id (now : String) (localData : AppData)
    (remote : SnapshotData) :
    RecordMap.filterKeys
      (fun date => !localData.sync.deletedNutritionDates.contains date)
      (mergeSnapshot now localData remote).nutritionByDate =
      (mergeSnapshot now localData remote).nutritionByDate := by
  apply Subtype.ext
  show ((mergeSnapshot now localData remote).nutritionByDate).val.filter _ = _
  rw [List.filter_eq_self]
  intro p hp
  rcases mem_setAll hp with h | h <;> exact (List.mem_filter.mp h).2

theorem profile_select_idem (b : Bool) (lp rp : Option UserProfile) :
    (if b then
        (if b then lp.orElse (fun _ => rp.orElse fun _ => none)
          else rp.orElse (fun _ => lp.orElse fun _ => none)).orElse
          (fun _ => rp.orElse fun _ => none)
      else
        rp.orElse (fun _ =>
          (if b then lp.orElse (fun _ => rp.orElse fun _ => none)
            else rp.orElse (fun _ => lp.orElse fun _ => none)).orElse
            fun _ => none)) =
      (if b then lp.orElse (fun _ => rp.orElse fun _ => none)
        else rp.orElse (fun _ => lp.orElse fun _ => none)) := by
  cases b <;> cases lp <;> cases rp <;> simp [Option.orElse]

theorem appData_ext {x y : AppData} (h1 : x.auth = y.auth)
    (h2 : x.profile = y.profile) (h3 : x.workouts = y.workouts)
    (h4 : x.nutritionByDate = y.nutritionByDate)
    (h5 : x.progressEntries = y.progressEntries) (h6 : x.sync = y.sync)
    (h7 : x.settings = y.settings) : x = y := by
  cases x
  cases y
  simp_all

/-- C7: mergeSnapshot is idempotent over the remote snapshot — merging the
same snapshot twice in a row with no local changes in between produces
identical output both times. -/
theorem mergeSnapshot_idempotent (now : String) (localData : AppData)
    (remote : SnapshotData) :
    mergeSnapshot now (mergeSnapshot now localData remote) remote =
      mergeSnapshot now localData remote := by
  apply appData_ext
  · rfl
  · show (if localData.sync.profilePending then
        (mergeSnapshot now localData remote).profile.orElse
          (fun _ => remote.profile.orElse fun _ => none)
      else
        remote.profile.orElse (fun _ =>
          (mergeSnapshot now localData remote).profile.orElse fun _ => none)) =
      (mergeSnapshot now localData remote).profile
    show (if localData.sync.profilePending then
        (if localData.sync.profilePending then
          localData.profile.orElse (fun _ => remote.profile.orElse fun _ => none)
          else remote.profile.orElse
            (fun _ => localData.profile.orElse fun _ => none)).orElse
          (fun _ => remote.profile.orElse fun _ => none)
      else
        remote.profile.orElse (fun _ =>
          (if localData.sync.profilePending then
            localData.profile.orElse
              (fun _ => remote.profile.orElse fun _ => none)
            else remote.profile.orElse
              (fun _ => localData.profile.orElse fun _ => none)).orElse
            fun _ => none)) = _
    exact profile_select_idem localData.sync.profilePending localData.profile
      remote.profile
  · show (mergeById WorkoutLog.id
        (((remote.workouts.getD []).map (normalizeWorkout now)).filter
          (fun e => !localData.sync.deletedWorkoutIds.contains e.id))
        ((mergeSnapshot now localData remote).workouts.filter
          (fun e => !localData.sync.deletedWorkoutIds.contains e.id))).mergeSort
        workoutLe = (mergeSnapshot now localData remote).workouts
    rw [merged_workouts_filter_id]
    exact mergeById_mergeSort_idem WorkoutLog.id workoutLe workoutLe_trans
      workoutLe_total _ _
  · show RecordMap.spread
        (RecordMap.filterKeys
          (fun date => !localData.sync.deletedNutritionDates.contains date)
          (remote.nutritionByDate.getD RecordMap.empty))
        (RecordMap.filterKeys
          (fun date => !localData.sync.deletedNutritionDates.contains date)
          (mergeSnapshot now localData remote).nutritionByDate) =
        (mergeSnapshot now localData remote).nutritionByDate
    rw [merged_nutrition_filter_id]
    exact spread_spread_idem _ _
  · show (mergeById ProgressEntry.id
        ((remote.progressEntries.getD []).filter
          (fun e => !localData.sync.deletedProgressIds.contains e.id))
        ((mergeSnapshot now localData remote).progressEntries.filter
          (fun e => !localData.sync.deletedProgressIds.contains e.id))).mergeSort
        progressLe = (mergeSnapshot now localData remote).progressEntries
    rw [merged_progress_filter_id]
    exact mergeById_mergeSort_idem ProgressEntry.id progressLe progressLe_trans
      progressLe_total _ _
  · rfl
  · rfl

/-! ### The persistence layer (appStore.ts)

`loadAppData` reads a raw string from AsyncStorage, parses it as JSON and
repairs its shape with `sanitize`.  TypeScript's static types notwithstanding,
at runtime `sanitize` passes several fields through unvalidated (`input.profile
?? null`, `input.nutritionByDate ?? {}`, …), so its output is modelled at the
JSON level: `StoredAppData` gives each passthrough field type `Json` and only
the workouts — which `sanitize` fully rebuilds — the typed `WorkoutLog` shape.

JS semantics modelled:

* `Json` is the image of `JSON.parse` (no `undefined` inside); a possibly
  undefined value is `Option Json` (`none` = `undefined`).
* Property access on `null` throws (`getProp` returns `Except.error`);
  on any other non-object it yields `undefined`; `x?.k` (`getPropOpt`) never
  throws.  `a ?? b` is `orDefault` (defaults on `null`/`undefined`).
* JS numbers are `Int` as in the rest of this file; `Number(x)` is `jsNumber`
  with `none` playing NaN — string coercion is modelled for integer literals,
  and `Number(x.toFixed(1))`/`Math.round x` are the identity on integers.
-/

inductive Json where
  | null
  | bool (b : Bool)
  | num (n : Int)
  | str (s : String)
  | arr (items : List Json)
  | obj (fields : List (String × Json))

def jsFalsy : Json → Bool
  | .null => true
  | .bool b => !b
  | .num n => n == 0
  | .str s => s.isEmpty
  | .arr _ => false
  | .obj _ => false

/-- `typeof x === "object"` for a parsed JSON value (arrays and `null`
included, JS quirks faithfully). -/
def isObjectType : Json → Bool
  | .null => true
  | .arr _ => true
  | .obj _ => true
  | _ => false

/-- `x.k`: throws (`error`) on `null`, yields `undefined` (`none`) on other
non-objects and on a missing key. -/
def getProp : Json → String → Except Unit (Option Json)
  | .null, _ => .error ()
  | .obj fs, k => .ok ((fs.find? (fun p => p.1 == k)).map Prod.snd)
  | _, _ => .ok none

/-- `x?.k` on a possibly-undefined value: short-circuits to `undefined` on
`null`/`undefined`, never throws. -/
def getPropOpt : Option Json → String → Option Json
  | none, _ => none
  | some .null, _ => none
  | some (.obj fs), k => (fs.find? (fun p => p.1 == k)).map Prod.snd
  | some _, _ => none

/-- `v ?? d`. -/
def orDefault : Option Json → Json → Json
  | none, d => d
  | some .null, d => d
  | some j, _ => j

/-- `Number(x)`; `none` models NaN. -/
def jsNumber : Option Json → Option Int
  | none => none
  | some .null => some 0
  | some (.bool b) => some (if b then 1 else 0)
  | some (.num n) => some n
  | some (.str s) => if s.trim.isEmpty then some 0 else s.trim.toInt?
  | some (.arr _) => none
  | some (.obj _) => none

structure StoredAuth where
  userId : Json
  email : Json
  token : Json

structure StoredSyncState where
  profilePending : Json
  nutritionPendingDates : Json
  progressPendingIds : Json
  deletedWorkoutIds : Json
  deletedNutritionDates : Json
  deletedProgressIds : Json
  lastSuccessfulSyncAt : Json

structure StoredSettings where
  dailyReminderEnabled : Json
  dailyReminderTime : Json
  reminderNotificationId : Json

/-- The runtime shape of what `sanitize` returns (and `loadAppData` yields). -/
structure StoredAppData where
  auth : StoredAuth
  profile : Json
  workouts : List WorkoutLog
  nutritionByDate : Json
  progressEntries : Json
  sync : StoredSyncState
  settings : StoredSettings

/-- `createEmptyAppData` from appStore.ts, at the stored-value level. -/
def createEmptyAppData : StoredAppData :=
  { auth := { userId := .null, email := .null, token := .null }
    profile := .null
    workouts := []
    nutritionByDate := .obj []
    progressEntries := .arr []
    sync :=
      { profilePending := .bool false
        nutritionPendingDates := .arr []
        progressPendingIds := .arr []
        deletedWorkoutIds := .arr []
        deletedNutritionDates := .arr []
        deletedProgressIds := .arr []
        lastSuccessfulSyncAt := .null }
    settings :=
      { dailyReminderEnabled := .bool false
        dailyReminderTime := .str "20:00"
        reminderNotificationId := .null } }

/-- `sanitizeExerciseEntries` from appStore.ts. -/
def sanitizeExerciseEntries (input : Option Json) : List WorkoutExerciseEntry :=
  match input with
  | some (.arr items) =>
    items.enum.flatMap (fun pair =>
      let index := pair.1
      let item := pair.2
      if jsFalsy item || !isObjectType item then []
      else
        match getPropOpt (some item) "name" with
        | some (.str nm) =>
          if nm.trim.isEmpty then []
          else
            match jsNumber (getPropOpt (some item) "sets"),
                jsNumber (getPropOpt (some item) "reps") with
            | some sets, some reps =>
              if sets < 1 || reps < 1 then []
              else
                [{ id :=
                     (match getPropOpt (some item) "id" with
                     | some (.str i) =>
                         if i.trim.isEmpty then "ex_local_" ++ toString index
                         else i
                     | _ => "ex_local_" ++ toString index)
                   name := nm.trim
                   sets := sets
                   reps := reps
                   weightKg :=
                     (match jsNumber (getPropOpt (some item) "weightKg") with
                     | some w => if 0 ≤ w then some w else none
                     | none => none) }]
            | _, _ => []
        | _ => [])
  | _ => []

/-- `sanitizeWorkoutLog` from appStore.ts; `today` models
`new Date().toISOString().slice(0, 10)` and `now` the full timestamp. -/
def sanitizeWorkoutLog (today now : String) (input : Json) (index : Nat) :
    Option WorkoutLog :=
  if jsFalsy input || !isObjectType input then none
  else
    some
      { id :=
          (match getPropOpt (some input) "id" with
          | some (.str s) =>
              if s.trim.isEmpty then "wk_local_" ++ toString index else s
          | _ => "wk_local_" ++ toString index)
        date :=
          (match getPropOpt (some input) "date" with
          | some (.str s) => s
          | _ => today)
        workoutType :=
          (match getPropOpt (some input) "workoutType" with
          | some (.str s) =>
              if s == "cardio" then .cardio
              else if s == "mobility" then .mobility
              else .strength
          | _ => .strength)
        durationMinutes :=
          (match jsNumber (getPropOpt (some input) "durationMinutes") with
          | some d => if 0 < d then d else 30
          | none => 30)
        exerciseEntries :=
          sanitizeExerciseEntries (getPropOpt (some input) "exerciseEntries")
        intensityRpe :=
          (match jsNumber (getPropOpt (some input) "intensityRpe") with
          | some i => if 1 ≤ i && i ≤ 10 then some i else none
          | none => none)
        caloriesBurned :=
          (match jsNumber (getPropOpt (some input) "caloriesBurned") with
          | some c => if 0 ≤ c then some c else none
          | none => none)
        templateName :=
          (match getPropOpt (some input) "templateName" with
          | some (.str s) => if s.trim.isEmpty then none else some s.trim
          | _ => none)
        notes :=
          (match getPropOpt (some input) "notes" with
          | some (.str s) => if s.trim.isEmpty then none else some s.trim
          | _ => none)
        createdAt :=
          (match getPropOpt (some input) "createdAt" with
          | some (.str s) => s
          | _ => now)
        syncedAt :=
          (match getPropOpt (some input) "syncedAt" with
          | some (.str s) => some s
          | _ => none) }

/-- `sanitize` from appStore.ts: field-wise shape repair.  The only way it can
throw is a property access on a `null` root (`JSON.parse("null")`). -/
def sanitize (today now : String) (input : Json) :
    Except Unit StoredAppData := do
  let workoutsRaw ← getProp input "workouts"
  let workouts :=
    match workoutsRaw with
    | some (.arr items) =>
        items.enum.filterMap (fun pair =>
          sanitizeWorkoutLog today now pair.2 pair.1)
    | _ => []
  let auth ← getProp input "auth"
  let profile ← getProp input "profile"
  let nutritionByDate ← getProp input "nutritionByDate"
  let progressEntries ← getProp input "progressEntries"
  let syncJ ← getProp input "sync"
  let settingsJ ← getProp input "settings"
  pure
    { auth :=
        { userId := orDefault (getPropOpt auth "userId") .null
          email := orDefault (getPropOpt auth "email") .null
          token := orDefault (getPropOpt auth "token") .null }
      profile := orDefault profile .null
      workouts := workouts
      nutritionByDate := orDefault nutritionByDate (.obj [])
      progressEntries :=
        (match progressEntries with
        | some (.arr items) => .arr items
        | _ => .arr [])
      sync :=
        { profilePending := orDefault (getPropOpt syncJ "profilePending") (.bool false)
          nutritionPendingDates :=
            (match getPropOpt syncJ "nutritionPendingDates" with
            | some (.arr xs) => .arr xs
            | _ => .arr [])
          progressPendingIds :=
            (match getPropOpt syncJ "progressPendingIds" with
            | some (.arr xs) => .arr xs
            | _ => .arr [])
          deletedWorkoutIds :=
            (match getPropOpt syncJ "deletedWorkoutIds" with
            | some (.arr xs) => .arr xs
            | _ => .arr [])
          deletedNutritionDates :=
            (match getPropOpt syncJ "deletedNutritionDates" with
            | some (.arr xs) => .arr xs
            | _ => .arr [])
          deletedProgressIds :=
            (match getPropOpt syncJ "deletedProgressIds" with
            | some (.arr xs) => .arr xs
            | _ => .arr [])
          lastSuccessfulSyncAt :=
            orDefault (getPropOpt syncJ "lastSuccessfulSyncAt") .null }
      settings :=
        { dailyReminderEnabled :=
            orDefault (getPropOpt settingsJ "dailyReminderEnabled") (.bool false)
          dailyReminderTime :=
            orDefault (getPropOpt settingsJ "dailyReminderTime") (.str "20:00")
          reminderNotificationId :=
            orDefault (getPropOpt settingsJ "reminderNotificationId") .null } }

/-- What `AsyncStorage.getItem` + `JSON.parse` can produce: no stored value
(or an empty string, both falsy), a raw string `JSON.parse` throws on, or a
parsed JSON value. -/
inductive StoredValue where
  | absent
  | malformed
  | parsed (v : Json)

/-- `loadAppData` from appStore.ts: absent and unparseable values, and any
exception escaping `sanitize`, fall back to `createEmptyAppData`. -/
def loadAppData (today now : String) : StoredValue → StoredAppData
  | .absent => createEmptyAppData
  | .malformed => createEmptyAppData
  | .parsed v =>
    match sanitize today now v with
    | .ok d => d
    | .error _ => createEmptyAppData

/-! ### Shape validation against the declared types

The TS interfaces of types.ts rendered as a checker over parsed JSON: a value
"passes shape validation" when it has exactly the declared `AppData` shape
(`?`-fields may be absent, `| null` fields may be null). -/

def jfield (fs : List (String × Json)) (k : String) : Option Json :=
  (fs.find? (fun p => p.1 == k)).map Prod.snd

def isStrVal : Option Json → Bool
  | some (.str _) => true
  | _ => false

def isNumVal : Option Json → Bool
  | some (.num _) => true
  | _ => false

def isBoolVal : Option Json → Bool
  | some (.bool _) => true
  | _ => false

def isStrOrNullVal : Option Json → Bool
  | some (.str _) => true
  | some .null => true
  | _ => false

def isOptStrVal : Option Json → Bool
  | none => true
  | some (.str _) => true
  | _ => false

def isOptNumVal : Option Json → Bool
  | none => true
  | some (.num _) => true
  | _ => false

def isStrArrVal : Option Json → Bool
  | some (.arr xs) =>
    xs.all (fun x => match x with | .str _ => true | _ => false)
  | _ => false

/-- `WorkoutExerciseEntry` from types.ts. -/
def conformsToExerciseEntry : Json → Bool
  | .obj fs =>
    isStrVal (jfield fs "id") && isStrVal (jfield fs "name") &&
      isNumVal (jfield fs "sets") && isNumVal (jfield fs "reps") &&
      isOptNumVal (jfield fs "weightKg")
  | _ => false

/-- `WorkoutLog` from types.ts. -/
def conformsToWorkoutLog : Json → Bool
  | .obj fs =>
    isStrVal (jfield fs "id") && isStrVal (jfield fs "date") &&
      (match jfield fs "workoutType" with
        | some (.str s) => s == "strength" || s == "cardio" || s == "mobility"
        | _ => false) &&
      isNumVal (jfield fs "durationMinutes") &&
      (match jfield fs "exerciseEntries" with
        | some (.arr xs) => xs.all conformsToExerciseEntry
        | _ => false) &&
      isOptNumVal (jfield fs "intensityRpe") &&
      isOptNumVal (jfield fs "caloriesBurned") &&
      isOptStrVal (jfield fs "templateName") &&
      isOptStrVal (jfield fs "notes") &&
      isStrVal (jfield fs "createdAt") &&
      isStrOrNullVal (jfield fs "syncedAt")
  | _ => false

/-- `UserProfile` from types.ts. -/
def conformsToUserProfile : Json → Bool
  | .obj fs =>
    isStrVal (jfield fs "id") && isStrVal (jfield fs "name") &&
      isNumVal (jfield fs "age") && isNumVal (jfield fs "heightCm") &&
      isNumVal (jfield fs "currentWeightKg") &&
      (match jfield fs "goal" with
        | some (.str s) =>
            s == "lose_weight" || s == "gain_muscle" || s == "maintain"
        | _ => false) &&
      isNumVal (jfield fs "dailyCalorieTarget") &&
      isNumVal (jfield fs "proteinTargetGrams")
  | _ => false

/-- `NutritionLog` from types.ts. -/
def conformsToNutritionLog : Json → Bool
  | .obj fs =>
    isStrVal (jfield fs "date") && isNumVal (jfield fs "calories") &&
      isNumVal (jfield fs "protein") && isNumVal (jfield fs "carbs") &&
      isNumVal (jfield fs "fat") && isNumVal (jfield fs "waterLiters")
  | _ => false

/-- `ProgressEntry` from types.ts. -/
def conformsToProgressEntry : Json → Bool
  | .obj fs =>
    isStrVal (jfield fs "id") && isStrVal (jfield fs "date") &&
      isNumVal (jfield fs "weightKg") && isOptNumVal (jfield fs "bodyFatPct") &&
      isOptNumVal (jfield fs "waistCm")
  | _ => false

/-- `AuthState` from types.ts. -/
def conformsToAuthState : Json → Bool
  | .obj fs =>
    isStrOrNullVal (jfield fs "userId") && isStrOrNullVal (jfield fs "email") &&
      isStrOrNullVal (jfield fs "token")
  | _ => false

/-- `LocalSyncState` from types.ts. -/
def conformsToSyncState : Json → Bool
  | .obj fs =>
    isBoolVal (jfield fs "profilePending") &&
      isStrArrVal (jfield fs "nutritionPendingDates") &&
      isStrArrVal (jfield fs "progressPendingIds") &&
      isStrArrVal (jfield fs "deletedWorkoutIds") &&
      isStrArrVal (jfield fs "deletedNutritionDates") &&
      isStrArrVal (jfield fs "deletedProgressIds") &&
      isStrOrNullVal (jfield fs "lastSuccessfulSyncAt")
  | _ => false

/-- `AppSettings` from types.ts. -/
def conformsToSettings : Json → Bool
  | .obj fs =>
    isBoolVal (jfield fs "dailyReminderEnabled") &&
      isStrVal (jfield fs "dailyReminderTime") &&
      isStrOrNullVal (jfield fs "reminderNotificationId")
  | _ => false

/-- `AppData` from types.ts: the shape a persisted value must have to pass
validation. -/
def conformsToAppData : Json → Bool
  | .obj fs =>
    (match jfield fs "auth" with
      | some a => conformsToAuthState a
      | none => false) &&
      (match jfield fs "profile" with
        | some .null => true
        | some p => conformsToUserProfile p
        | none => false) &&
      (match jfield fs "workouts" with
        | some (.arr ws) => ws.all conformsToWorkoutLog
        | _ => false) &&
      (match jfield fs "nutritionByDate" with
        | some (.obj nf) => nf.all (fun p => conformsToNutritionLog p.2)
        | _ => false) &&
      (match jfield fs "progressEntries" with
        | some (.arr ps) => ps.all conformsToProgressEntry
        | _ => false) &&
      (match jfield fs "sync" with
        | some s => conformsToSyncState s
        | none => false) &&
      (match jfield fs "settings" with
        | some s => conformsToSettings s
        | none => false)
  | _ => false

/-- A persisted value that fails shape validation (its profile is not a valid
`UserProfile`) yet is not reset by `loadAppData`. -/
def malformedPersisted : Json :=
  Json.obj [("profile", Json.obj [("id", Json.str "x")])]

/-- Counterexample to C9 as stated: `malformedPersisted` fails shape
validation, yet `loadAppData` does not return a freshly-initialized empty
`AppData` for it — `sanitize` repairs field-by-field and keeps the
non-conforming profile object. -/
theorem loadAppData_fallback_cex :
    conformsToAppData malformedPersisted = false ∧
      loadAppData "2026-02-16" "T" (.parsed malformedPersisted) ≠
        createEmptyAppData := by
  constructor
  · rfl
  · intro h
    have h2 := congrArg StoredAppData.profile h
    have e1 : (loadAppData "2026-02-16" "T"
        (.parsed malformedPersisted)).profile =
        Json.obj [("id", Json.str "x")] := rfl
    have e2 : createEmptyAppData.profile = Json.null := rfl
    rw [e1, e2] at h2
    exact Json.noConfusion h2

/-- C9 (amended): `loadAppData` never propagates an error; it falls back to a
freshly-initialized empty `AppData` exactly when there is no persisted value,
the raw value is not parseable JSON, or it parses to `null` (the one value on
which `sanitize` throws); every other persisted value — conforming or not —
is repaired field-wise by `sanitize` and returned. -/
theorem loadAppData_recovery (today now : String) :
    loadAppData today now .absent = createEmptyAppData ∧
      loadAppData today now .malformed = createEmptyAppData ∧
      loadAppData today now (.parsed .null) = createEmptyAppData ∧
      (∀ v : Json, v ≠ Json.null →
        ∃ d, sanitize today now v = Except.ok d ∧
          loadAppData today now (.parsed v) = d) := by
  refine ⟨rfl, rfl, rfl, ?_⟩
  intro v hv
  cases v with
  | null => exact absurd rfl hv
  | bool b => exact ⟨_, rfl, rfl⟩
  | num n => exact ⟨_, rfl, rfl⟩
  | str s => exact ⟨_, rfl, rfl⟩
  | arr items => exact ⟨_, rfl, rfl⟩
  | obj fields => exact ⟨_, rfl, rfl⟩

/-- Witness for C9 (amended) at a concrete non-null persisted value. -/
theorem loadAppData_recovery_witness :
    Json.num 5 ≠ Json.null ∧
      ∃ d, sanitize "2026-02-16" "T" (Json.num 5) = Except.ok d ∧
        loadAppData "2026-02-16" "T" (.parsed (Json.num 5)) = d := by
  have hne : Json.num 5 ≠ Json.null := fun h => Json.noConfusion h
  exact ⟨hne, (loadAppData_recovery "2026-02-16" "T").2.2.2 (Json.num 5) hne⟩

end FitTrack
